import Mathlib

/-!
Verification development for the git-scanline hotspot detection engine.

The TypeScript source is embedded shallowly:
* JS `Map<string, T>` becomes an association list `List (String × T)` with
  `setA` (insert-or-replace, as `Map.set`) and `lookupA` (as `Map.get`).
* JS `number` becomes `ℚ` for fractional score arithmetic, `Int` for
  rounded scores and timestamps, `Nat` for counts.
* `Math.round x` becomes `jround x = ⌊x + 1/2⌋` (round half toward +∞,
  exactly JS semantics).
* JS string operations (`trim`, `split`, `includes`, …) are implemented
  over `String.data : List Char` so that all definitions reduce.
-/

namespace Scanline

/-- JS `Math.round`: round half away toward positive infinity. -/
def jround (q : ℚ) : Int := ⌊q + 1/2⌋


/-- Association-list model of a JS `Map`: first matching key wins on lookup. -/
def lookupA {κ α : Type} [DecidableEq κ] (m : List (κ × α)) (k : κ) : Option α :=
  match m with
  | [] => none
  | (k', v) :: t => if k' = k then some v else lookupA t k

/-- JS `map.get(k) ?? d`. -/
def lookupD {κ α : Type} [DecidableEq κ] (m : List (κ × α)) (k : κ) (d : α) : α :=
  (lookupA m k).getD d

/-- JS `Map.set`: replace in place if the key exists, else append. -/
def setA {κ α : Type} [DecidableEq κ] (m : List (κ × α)) (k : κ) (v : α) :
    List (κ × α) :=
  match m with
  | [] => [(k, v)]
  | (k', v') :: t => if k' = k then (k, v) :: t else (k', v') :: setA t k v

/-- JS `map.set(k, (map.get(k) ?? 0) + 1)`. -/
def bump {κ : Type} [DecidableEq κ] (m : List (κ × Nat)) (k : κ) : List (κ × Nat) :=
  setA m k (lookupD m k 0 + 1)


/-! ### JS string primitives over `List Char` -/

/-- Whitespace for JS `trim` (ASCII subset, which covers git log output). -/
def isWS (c : Char) : Bool := c = ' ' || c = '\t' || c = '\n' || c = '\r'

def trimChars (l : List Char) : List Char :=
  ((l.dropWhile isWS).reverse.dropWhile isWS).reverse

/-- JS `String.prototype.trim`. -/
def trimS (s : String) : String := ⟨trimChars s.data⟩

def isPrefixL : List Char → List Char → Bool
  | [], _ => true
  | _ :: _, [] => false
  | a :: as, b :: bs => a = b && isPrefixL as bs

/-- JS `s.startsWith(p)`. -/
def startsWithS (s p : String) : Bool := isPrefixL p.data s.data

/-- JS `s.split(sep)` for a non-empty separator `s0 :: srest`:
non-overlapping, left to right. Structural recursion on a fuel argument
(one unit per consumed character) so the kernel can evaluate it; any fuel
of at least the input length gives the untruncated JS behaviour. -/
def splitChars (s0 : Char) (srest : List Char) : Nat → List Char → List (List Char)
  | _, [] => [[]]
  | 0, l => [l]
  | fuel + 1, c :: rest =>
    if isPrefixL (s0 :: srest) (c :: rest) then
      [] :: splitChars s0 srest fuel (rest.drop srest.length)
    else
      match splitChars s0 srest fuel rest with
      | [] => [[c]]
      | h :: t => (c :: h) :: t

/-- JS `s.split(sep)` (empty separator never occurs in the embedded code). -/
def splitStr (s sep : String) : List String :=
  match sep.data with
  | [] => [s]
  | c :: cs => (splitChars c cs s.data.length s.data).map (fun l => ⟨l⟩)

/-- JS `s.includes(sub)`, expressed through `split`: a string contains a
non-empty substring exactly when splitting on it yields more than one part. -/
def includesS (s sub : String) : Bool := (splitStr s sub).length > 1

/-- JS `s.includes(c)` for a single character. -/
def containsC (s : String) (c : Char) : Bool := s.data.any (fun x => x = c)

def joinWith (sep : List Char) : List (List Char) → List Char
  | [] => []
  | [x] => x
  | x :: xs => x ++ sep ++ joinWith sep xs

/-- JS `parts.join(sep)` on strings. -/
def joinS (parts : List String) (sep : String) : String :=
  ⟨joinWith sep.data (parts.map String.data)⟩

/-- Accumulate a decimal digit run, stopping at the first non-digit. -/
def digitsAcc : List Char → Nat → Nat
  | [], acc => acc
  | c :: rest, acc =>
    if c.isDigit then digitsAcc rest (acc * 10 + (c.toNat - 48)) else acc

/-- JS `parseInt(s, 10)`: skip leading whitespace, optional sign, then the
longest digit run; `none` models `NaN` (no digits at all). -/
def parseIntJS (s : String) : Option Int :=
  match s.data.dropWhile isWS with
  | '-' :: rest =>
    match rest with
    | c :: _ => if c.isDigit then some (-(digitsAcc rest 0 : Int)) else none
    | [] => none
  | '+' :: rest =>
    match rest with
    | c :: _ => if c.isDigit then some ((digitsAcc rest 0 : Int)) else none
    | [] => none
  | c :: rest => if c.isDigit then some ((digitsAcc (c :: rest) 0 : Int)) else none
  | [] => none

/-- JS `parseInt(s, 10)` where the surrounding code treats `NaN` as `0`
(only reachable on malformed input the claims never touch). -/
def parseIntD (s : String) : Int := (parseIntJS s).getD 0

/-- JS string membership test used for the `Set`-backed file sets. -/
def memS (files : List String) (f : String) : Bool := files.any (fun y => y = f)


/-! ### Data model (src/node/src/types.ts) -/

structure Commit where
  hash : String
  author : String
  timestamp : Int
  subject : String
  files : List String
deriving DecidableEq

structure DiffStats where
  additions : Int
  deletions : Int
deriving DecidableEq

structure ChurnData where
  commitCount : Nat
  weightedScore : Int
  rawScore : Int
deriving DecidableEq

structure BugData where
  bugCommits : Nat
  bugScore : Int
deriving DecidableEq

structure RevertData where
  revertCount : Nat
  revertScore : Int
deriving DecidableEq

structure BurstData where
  burstIncidents : Nat
  burstScore : Int
deriving DecidableEq

structure SiloData where
  topAuthor : String
  topAuthorPercent : Int
  authorCount : Nat
deriving DecidableEq

structure CommitQualityData where
  wipCommits : Nat
  largeCommitCount : Nat
  commitQualityScore : ℚ
deriving DecidableEq

structure CouplingEntry where
  fileA : String
  fileB : String
  coChanges : Nat
  strength : Int
deriving DecidableEq

inductive Tier where
  | CRITICAL
  | HIGH
  | MEDIUM
  | LOW
deriving DecidableEq

/-! ### Regex predicates on commit subjects

The analyzers use three fixed regexes. They are embedded as executable
character scans with JS semantics: `\b` is an ASCII word boundary
(`[A-Za-z0-9_]` on one side only), and the `i` flag is lowercase folding. -/

def isWordChar (c : Char) : Bool := c.isAlpha || c.isDigit || c = '_'

/-- Case-insensitive match of the (lowercase) word `w` at the head of `l`. -/
def matchCI : List Char → List Char → Bool
  | [], _ => true
  | _ :: _, [] => false
  | a :: as, c :: cs => a = c.toLower && matchCI as cs

/-- True when `w` matches at the head of `l` and is followed by a word boundary. -/
def wordHere (w l : List Char) : Bool :=
  matchCI w l &&
    (match l.drop w.length with
     | [] => true
     | c :: _ => ! isWordChar c)

/-- Scan `l` for `\bw\b` (with `w` a lowercase letters-only word, so the left
boundary is "previous char is absent or not a word char"). -/
def scanWord (w : List Char) : Option Char → List Char → Bool
  | _, [] => false
  | prev, c :: rest =>
    ((match prev with
      | none => true
      | some p => ! isWordChar p) && wordHere w (c :: rest))
    || scanWord w (some c) rest

/-- Search of the `/\bword\b/i` style over a whole subject. -/
def hasWord (s : String) (w : String) : Bool := scanWord w.data none s.data

/-- The regex `REVERT_PATTERN = /^revert\b/i` of revert-tracker.ts. -/
def revertTest (s : String) : Bool := wordHere "revert".data s.data

/-- The regex `BUG_PATTERN` of bug-correlation.ts: any of the fixed bug-fix keywords as a
whole word, case-insensitive. -/
def bugTest (s : String) : Bool :=
  ["fix", "bug", "patch", "hotfix", "regression", "broken", "crash", "defect",
   "issue", "error"].any (fun w => hasWord s w)

/-! ### Revert tracking (src/node/src/analyzers/revert-tracker.ts) -/

/-- Embeds `analyzeReverts`: count, per filtered file, the revert commits touching it,
then normalize against the maximum count (floored at `0.0001`). -/
def analyzeReverts (commits : List Commit) (files : List String) :
    List (String × RevertData) :=
  let revertCommits := commits.filter (fun c => revertTest (trimS c.subject))
  let fileReverts := revertCommits.foldl
    (fun m c => c.files.foldl
      (fun m f => if memS files f then bump m f else m) m) []
  let maxReverts : ℚ :=
    (fileReverts.map (fun p => (p.2 : ℚ))).foldl max (1/10000)
  files.map (fun f =>
    let count := lookupD fileReverts f 0
    (f, { revertCount := count
          revertScore := jround ((count : ℚ) / maxReverts * 100) }))

/-! ### Bug correlation (src/node/src/analyzers/bug-correlation.ts) -/

/-- Embeds `analyzeBugCorrelation`: count, per filtered file, the bug-tagged commits
touching it, then normalize against the maximum count (floored at `0.0001`). -/
def analyzeBugCorrelation (commits : List Commit) (files : List String) :
    List (String × BugData) :=
  let bugCommits := commits.filter (fun c => bugTest c.subject)
  let fileBugCounts := bugCommits.foldl
    (fun m c => c.files.foldl
      (fun m f => if memS files f then bump m f else m) m) []
  let maxCount : ℚ :=
    (fileBugCounts.map (fun p => (p.2 : ℚ))).foldl max (1/10000)
  files.map (fun f =>
    let count := lookupD fileBugCounts f 0
    (f, { bugCommits := count
          bugScore := jround ((count : ℚ) / maxCount * 100) }))

/-! ### Burst detection (src/node/src/analyzers/burst-detector.ts) -/

def insertAsc (x : Int) : List Int → List Int
  | [] => [x]
  | y :: ys => if x ≤ y then x :: y :: ys else y :: insertAsc x ys

/-- JS `timestamps.sort((a, b) => a - b)`. -/
def sortAsc (l : List Int) : List Int := l.foldr insertAsc []

/-- The scan loop of `analyzeBursts` over one file's ascending timestamps:
take the maximal run from the current index that stays within the 24h window
of its first element; if it has ≥ 3 commits, count one incident and resume
after the run, else advance one position. Structural on a fuel argument
(one unit per loop iteration; `l.length` always suffices). -/
def burstScanF : Nat → List Int → Nat
  | _, [] => 0
  | 0, _ => 0
  | fuel + 1, t :: rest =>
    let run := (t :: rest).takeWhile (fun x => x - t ≤ 24 * 3600)
    if run.length ≥ 3 then 1 + burstScanF fuel ((t :: rest).drop run.length)
    else burstScanF fuel rest

def burstScan (l : List Int) : Nat := burstScanF l.length l

/-- The `fileTimestamps` accumulation loop of `analyzeBursts`. -/
def fileTimestampsMap (commits : List Commit) (files : List String) :
    List (String × List Int) :=
  commits.foldl
    (fun m c => c.files.foldl
      (fun m f =>
        if memS files f then setA m f (lookupD m f [] ++ [c.timestamp]) else m)
      m) []

/-- The final `result.set(file, …)` step of `analyzeBursts`. -/
def mkBurstEntry (maxBursts : ℚ) (burstIncidents : Nat) : BurstData :=
  { burstIncidents := burstIncidents
    burstScore := jround ((burstIncidents : ℚ) / maxBursts * 100) }

/-- Embeds `analyzeBursts`: per file, collect touching-commit timestamps, sort them,
count burst incidents with the sliding-window scan, then normalize against
the maximum incident count (floored at `0.0001`). -/
def analyzeBursts (commits : List Commit) (files : List String) :
    List (String × BurstData) :=
  let fileTimestamps := fileTimestampsMap commits files
  let rawResult := files.foldl
    (fun m f => setA m f (burstScan (sortAsc (lookupD fileTimestamps f [])))) []
  let maxBursts : ℚ :=
    (rawResult.map (fun p => (p.2 : ℚ))).foldl max (1/10000)
  rawResult.map (fun p => (p.1, mkBurstEntry maxBursts p.2))

/-! ### Churn (src/node/src/analyzers/churn.ts)

`Math.exp(-0.005 * daysAgo)` is real-valued; the analyzer is embedded
parametrically in the decay function `decay : Int → ℚ` (applied to the
truncated day difference `daysAgo`, as `dayjs.diff(…, 'day')` computes it),
together with the current time `now`. Every property proved about churn
holds for all decay functions, in particular for the exponential one. -/

def analyzeChurn (decay : Int → ℚ) (now : Int)
    (commits : List Commit) (files : List String) : List (String × ChurnData) :=
  let fileChurn : List (String × (Nat × ℚ)) := commits.foldl
    (fun m c =>
      let daysAgo := (now - c.timestamp).tdiv 86400
      let decayWeight := decay daysAgo
      c.files.foldl
        (fun m f =>
          if memS files f then
            let e := lookupD m f (0, 0)
            setA m f (e.1 + 1, e.2 + decayWeight)
          else m) m) []
  let totalCommits : Nat := max commits.length 1
  let maxWeighted : ℚ :=
    (fileChurn.map (fun p => p.2.2)).foldl max (1/10000)
  files.map (fun f =>
    let data := lookupD fileChurn f (0, 0)
    (f, { commitCount := data.1
          rawScore := min 100 (jround ((data.1 : ℚ) / (totalCommits : ℚ) * 500))
          weightedScore := jround (data.2 / maxWeighted * 100) }))

/-! ### Author silos (src/node/src/git/blame-analyzer.ts) -/

/-- Embeds `analyzeAuthors`: per file, tally commits by author; report the top
author, its percentage, and the distinct author count. Untouched files get
the worst-case default `{topAuthor := "unknown", topAuthorPercent := 100,
authorCount := 1}`. -/
def analyzeAuthors (commits : List Commit) (files : List String) :
    List (String × SiloData) :=
  let fileAuthorMap : List (String × List (String × Nat)) := commits.foldl
    (fun m c => c.files.foldl
      (fun m f =>
        if memS files f then setA m f (bump (lookupD m f []) c.author) else m)
      m) []
  files.map (fun f =>
    (f, match lookupA fileAuthorMap f with
        | none => { topAuthor := "unknown", topAuthorPercent := 100, authorCount := 1 }
        | some authorMap =>
          if authorMap.length = 0 then
            { topAuthor := "unknown", topAuthorPercent := 100, authorCount := 1 }
          else
            let z := authorMap.foldl
              (fun (acc : String × Nat × Nat) p =>
                let total := acc.2.2 + p.2
                if p.2 > acc.2.1 then (p.1, p.2, total) else (acc.1, acc.2.1, total))
              ("", 0, 0)
            { topAuthor := z.1
              topAuthorPercent :=
                if z.2.2 > 0 then jround ((z.2.1 : ℚ) / (z.2.2 : ℚ) * 100) else 100
              authorCount := authorMap.length }))

/-! ### Commit quality (src/node/src/analyzers/commit-quality.ts) -/

/-- The anchored second alternative of `WIP_PATTERN`:
`^(fix|update|changes|stuff|misc|test|cleanup|commit|save|ok|done)\s*[.!]?\s*$`. -/
def genericSubject (s : String) : Bool :=
  ["fix", "update", "changes", "stuff", "misc", "test", "cleanup", "commit",
   "save", "ok", "done"].any (fun w =>
    matchCI w.data s.data &&
      (let rest := (s.data.drop w.length).dropWhile isWS
       match rest with
       | [] => true
       | c :: rest' => (c = '.' || c = '!') && (rest'.dropWhile isWS).isEmpty))

/-- The regex `WIP_PATTERN`: a WIP/rushed-work keyword as a whole word anywhere, or a
generic one-word subject. -/
def wipPat (s : String) : Bool :=
  (["wip", "temp", "tmp", "fixup", "squash", "hack", "dirty", "oops", "typo",
    "debug", "draft"].any (fun w => hasWord s w)) || genericSubject s

/-- A commit is low-quality when its trimmed subject matches `WIP_PATTERN`
or is shorter than 10 characters. -/
def isWipC (c : Commit) : Bool :=
  wipPat (trimS c.subject) || (trimS c.subject).data.length < 10

/-- A commit is "large" when it touches more than 30 files
(`commit.files.length`, not the filtered count). -/
def isLargeC (c : Commit) : Bool := c.files.length > 30

/-- Embeds `analyzeCommitQuality`: per filtered file, count low-quality and large
commits touching it; score `(wip/maxWip)*60 + (large/maxLarge)*40` with each
maximum floored at 1. -/
def analyzeCommitQuality (commits : List Commit) (files : List String) :
    List (String × CommitQualityData) :=
  let counts := commits.foldl
    (fun (acc : List (String × Nat) × List (String × Nat)) c =>
      let isWip := isWipC c
      let isLarge := isLargeC c
      c.files.foldl
        (fun acc f =>
          if memS files f then
            ((if isWip then bump acc.1 f else acc.1),
             (if isLarge then bump acc.2 f else acc.2))
          else acc) acc)
    ([], [])
  let maxWip : Nat := (counts.1.map (fun p => p.2)).foldl max 1
  let maxLarge : Nat := (counts.2.map (fun p => p.2)).foldl max 1
  files.map (fun f =>
    let wip := lookupD counts.1 f 0
    let large := lookupD counts.2 f 0
    (f, { wipCommits := wip
          largeCommitCount := large
          commitQualityScore :=
            (wip : ℚ) / (maxWip : ℚ) * 60 + (large : ℚ) / (maxLarge : ℚ) * 40 }))

/-! ### Co-change coupling (src/node/src/analyzers/coupling.ts) -/

/-- The sorted pair key `[a, b].sort().join('||')`, embedded as the ordered
pair itself (git paths never contain `||`, so the string key and the pair
are in bijection). -/
def pairKey (a b : String) : String × String := if a ≤ b then (a, b) else (b, a)

/-- The `i < j` double loop over a touched-file list: all index-ordered pairs. -/
def allPairs : List String → List (String × String)
  | [] => []
  | x :: xs => xs.map (fun y => (x, y)) ++ allPairs xs

/-- The accumulation loop of `analyzeCoupling`: per commit, bump each touched
file's total count, and—unless the commit touches more than 20 filtered
files—bump every unordered touched pair's co-change count.
Returns `(pairCounts, fileCounts)`. -/
def couplingCounts (commits : List Commit) (files : List String) :
    List ((String × String) × Nat) × List (String × Nat) :=
  commits.foldl
    (fun acc c =>
      let touched := c.files.filter (fun f => memS files f)
      let fc := touched.foldl (fun m f => bump m f) acc.2
      if touched.length > 20 then (acc.1, fc)
      else
        ((allPairs touched).foldl (fun m p => bump m (pairKey p.1 p.2)) acc.1, fc))
    ([], [])

/-- The per-pair strength computation of `analyzeCoupling`: Jaccard
similarity `coChanges / (totalA + totalB − coChanges)`, scaled to 0–100. -/
def strengthOfKey (fileCounts : List (String × Nat)) (key : String × String)
    (coChanges : Nat) : Int :=
  let totalA := lookupD fileCounts key.1 1
  let totalB := lookupD fileCounts key.2 1
  let union : Int := (totalA : Int) + (totalB : Int) - (coChanges : Int)
  if union > 0 then jround ((coChanges : ℚ) / (union : ℚ) * 100) else 0

/-- Stable insertion into a list kept in descending `coChanges` order. -/
def insertByCo (e : CouplingEntry) : List CouplingEntry → List CouplingEntry
  | [] => [e]
  | x :: xs => if x.coChanges ≥ e.coChanges then x :: insertByCo e xs else e :: x :: xs

/-- JS `couplings.sort((a, b) => b.coChanges - a.coChanges)`. -/
def sortByCo (l : List CouplingEntry) : List CouplingEntry := l.foldr insertByCo []

/-- Embeds `analyzeCoupling`: keep pairs with at least 3 co-changes, compute their
strengths, and sort by co-change count descending. -/
def analyzeCoupling (commits : List Commit) (files : List String) :
    List CouplingEntry :=
  let mm := couplingCounts commits files
  let couplings := mm.1.filterMap (fun kv =>
    if kv.2 < 3 then none
    else some { fileA := kv.1.1
                fileB := kv.1.2
                coChanges := kv.2
                strength := strengthOfKey mm.2 kv.1 kv.2 })
  sortByCo couplings

/-- The strength `analyzeCoupling` computes for the unordered pair `{a, b}`:
look up the sorted pair key; fewer than 3 co-changes means the pair is
dropped, i.e. strength 0. -/
def strengthFor (commits : List Commit) (files : List String) (a b : String) :
    Int :=
  let mm := couplingCounts commits files
  let co := lookupD mm.1 (pairKey a b) 0
  if co < 3 then 0 else strengthOfKey mm.2 (pairKey a b) co

/-- Embeds `getCouplingScores`: start every file at 0 and fold in the maximum
strength over the coupling entries mentioning it. -/
def getCouplingScores (files : List String) (couplings : List CouplingEntry) :
    List (String × Int) :=
  let init := files.map (fun f => (f, (0 : Int)))
  couplings.foldl
    (fun scores e =>
      let prevA := lookupD scores e.fileA 0
      let prevB := lookupD scores e.fileB 0
      let s1 := if (lookupA scores e.fileA).isSome
                then setA scores e.fileA (max prevA e.strength) else scores
      if (lookupA s1 e.fileB).isSome
      then setA s1 e.fileB (max prevB e.strength) else s1)
    init

/-! ### Hotspot scorer (src/node/src/scoring/hotspot-scorer.ts) -/

structure Weights where
  churn : ℚ
  bugs : ℚ
  reverts : ℚ
  bursts : ℚ
  coupling : ℚ
  silo : ℚ
  commitQuality : ℚ
deriving DecidableEq

/-- TS `Partial<Weights>`: a caller-supplied override with any subset of keys. -/
structure WeightsOverride where
  churn : Option ℚ := none
  bugs : Option ℚ := none
  reverts : Option ℚ := none
  bursts : Option ℚ := none
  coupling : Option ℚ := none
  silo : Option ℚ := none
  commitQuality : Option ℚ := none
deriving DecidableEq

def DEFAULT_WEIGHTS : Weights :=
  { churn := 27/100, bugs := 27/100, reverts := 14/100, bursts := 9/100,
    coupling := 9/100, silo := 5/100, commitQuality := 9/100 }

/-- JS `\x7b ...DEFAULT_WEIGHTS, ...weights \x7d`. -/
def mergeWeights (o : WeightsOverride) : Weights :=
  { churn := o.churn.getD DEFAULT_WEIGHTS.churn
    bugs := o.bugs.getD DEFAULT_WEIGHTS.bugs
    reverts := o.reverts.getD DEFAULT_WEIGHTS.reverts
    bursts := o.bursts.getD DEFAULT_WEIGHTS.bursts
    coupling := o.coupling.getD DEFAULT_WEIGHTS.coupling
    silo := o.silo.getD DEFAULT_WEIGHTS.silo
    commitQuality := o.commitQuality.getD DEFAULT_WEIGHTS.commitQuality }

def sumWeights (w : Weights) : ℚ :=
  w.churn + w.bugs + w.reverts + w.bursts + w.coupling + w.silo + w.commitQuality

/-- The in-place renormalization `w[key] = w[key] / weightSum` (the sum is
computed before any division). -/
def normWeights (w : Weights) : Weights :=
  let s := sumWeights w
  { churn := w.churn / s, bugs := w.bugs / s, reverts := w.reverts / s,
    bursts := w.bursts / s, coupling := w.coupling / s, silo := w.silo / s,
    commitQuality := w.commitQuality / s }

structure HotspotDetails where
  commitCount : Nat
  bugCommits : Nat
  revertCount : Nat
  burstIncidents : Nat
  wipCommits : Nat
  largeCommitCount : Nat
  topAuthor : String
  topAuthorPercent : Int
  authorCount : Nat
  additions : Int
  deletions : Int
deriving DecidableEq

structure HotspotResult where
  file : String
  hotspotScore : Int
  churnScore : Int
  bugFixScore : Int
  revertScore : Int
  burstScore : Int
  couplingScore : Int
  siloScore : Int
  commitQualityScore : ℚ
  tier : Tier
  details : HotspotDetails
deriving DecidableEq

structure ScoringInput where
  churnData : List (String × ChurnData)
  bugData : List (String × BugData)
  revertData : List (String × RevertData)
  burstData : List (String × BurstData)
  couplingData : List CouplingEntry
  siloData : List (String × SiloData)
  commitQualityData : List (String × CommitQualityData)
  diffStats : List (String × DiffStats)
  weights : WeightsOverride

def CHURN_FALLBACK : ChurnData := { weightedScore := 0, commitCount := 0, rawScore := 0 }
def BUG_FALLBACK : BugData := { bugScore := 0, bugCommits := 0 }
def REVERT_FALLBACK : RevertData := { revertScore := 0, revertCount := 0 }
def BURST_FALLBACK : BurstData := { burstScore := 0, burstIncidents := 0 }
def SILO_FALLBACK : SiloData := { topAuthor := "unknown", topAuthorPercent := 0, authorCount := 1 }
def CQ_FALLBACK : CommitQualityData := { wipCommits := 0, largeCommitCount := 0, commitQualityScore := 0 }
def DIFF_FALLBACK : DiffStats := { additions := 0, deletions := 0 }

def getTier (score : Int) : Tier :=
  if score ≥ 75 then .CRITICAL
  else if score ≥ 50 then .HIGH
  else if score ≥ 25 then .MEDIUM
  else .LOW

/-- Embeds `scoreHotspots`: renormalize the merged weights, derive the per-file
coupling scores, and emit one `HotspotResult` per filtered file. -/
def scoreHotspots (files : List String) (input : ScoringInput) :
    List HotspotResult :=
  let w := normWeights (mergeWeights input.weights)
  let couplingScores := getCouplingScores files input.couplingData
  files.map (fun file =>
    let churn := (lookupA input.churnData file).getD CHURN_FALLBACK
    let bugs := (lookupA input.bugData file).getD BUG_FALLBACK
    let reverts := (lookupA input.revertData file).getD REVERT_FALLBACK
    let bursts := (lookupA input.burstData file).getD BURST_FALLBACK
    let silo := (lookupA input.siloData file).getD SILO_FALLBACK
    let cq := (lookupA input.commitQualityData file).getD CQ_FALLBACK
    let diff := (lookupA input.diffStats file).getD DIFF_FALLBACK
    let churnScore := churn.weightedScore
    let bugFixScore := bugs.bugScore
    let revertScore := reverts.revertScore
    let burstScore := bursts.burstScore
    let couplingScore := lookupD couplingScores file 0
    let siloScore := silo.topAuthorPercent
    let commitQualityScore := cq.commitQualityScore
    let hotspotScore := jround (
      (churnScore : ℚ) * w.churn +
      (bugFixScore : ℚ) * w.bugs +
      (revertScore : ℚ) * w.reverts +
      (burstScore : ℚ) * w.bursts +
      (couplingScore : ℚ) * w.coupling +
      (siloScore : ℚ) * w.silo +
      commitQualityScore * w.commitQuality)
    { file := file
      hotspotScore := hotspotScore
      churnScore := churnScore
      bugFixScore := bugFixScore
      revertScore := revertScore
      burstScore := burstScore
      couplingScore := couplingScore
      siloScore := siloScore
      commitQualityScore := commitQualityScore
      tier := getTier hotspotScore
      details := { commitCount := churn.commitCount
                   bugCommits := bugs.bugCommits
                   revertCount := reverts.revertCount
                   burstIncidents := bursts.burstIncidents
                   wipCommits := cq.wipCommits
                   largeCommitCount := cq.largeCommitCount
                   topAuthor := silo.topAuthor
                   topAuthorPercent := silo.topAuthorPercent
                   authorCount := silo.authorCount
                   additions := diff.additions
                   deletions := diff.deletions } })

/-! ### Rename normalization and log parsing
(src/node/src/git/log-parser.ts and src/node/src/git/diff-parser.ts) -/

/-- Split a brace-rename segment (the chars strictly between the braces) at
its last usable " => ": the JS regex `[^}]+ => ([^}]+)` is greedy, so
backtracking selects the last arrow that leaves a non-empty capture.
Returns `(before, capture)`. -/
def lastArrow : List Char → Option (List Char × List Char)
  | [] => none
  | c :: rest =>
    match lastArrow rest with
    | some (b, a) => some (c :: b, a)
    | none =>
      if isPrefixL " => ".data (c :: rest) then
        match (c :: rest).drop 4 with
        | [] => none
        | a => some ([], a)
      else none

/-- Attempt the brace-rename match just after an opening brace: the segment
up to the matching close brace must contain " => " with non-empty text on
both sides. Returns `(capture, text after the close brace)`. -/
def braceHere (rest : List Char) : Option (List Char × List Char) :=
  let seg := rest.takeWhile (fun c => c ≠ '\x7d')
  match rest.drop seg.length with
  | '\x7d' :: after =>
    match lastArrow seg with
    | some (b, a) => if b.isEmpty then none else some (a, after)
    | none => none
  | _ => none

/-- First match of the brace-rename regex anywhere in the string:
`(prefix, capture, suffix)` such that the matched region
`prefix ++ "{…}" ++ suffix` rewrites to `prefix ++ capture ++ suffix`. -/
def braceMatch : List Char → Option (List Char × List Char × List Char)
  | [] => none
  | c :: rest =>
    if c = '\x7b' then
      match braceHere rest with
      | some (cap, after) => some ([], cap, after)
      | none =>
        match braceMatch rest with
        | some (b, cp, a) => some (c :: b, cp, a)
        | none => none
    else
      match braceMatch rest with
      | some (b, cp, a) => some (c :: b, cp, a)
      | none => none

/-- JS `.replace(/\/\//g, '/')`: left-to-right, non-overlapping. -/
def collapseSlashes : List Char → List Char
  | '/' :: '/' :: rest => '/' :: collapseSlashes rest
  | c :: rest => c :: collapseSlashes rest
  | [] => []

/-- Embeds `normalizeFilename` of log-parser.ts: resolve the brace rename form
`prefix/{old => new}/suffix`, else the plain form `old => new` (keep the
part after the last " => "), else return the line unchanged. -/
def normalizeFilename (raw : String) : Option String :=
  if containsC raw '\x7b' && includesS raw "=>" then
    let replaced :=
      match braceMatch raw.data with
      | some (b, cap, a) => b ++ cap ++ a
      | none => raw.data
    let normalized : String := ⟨collapseSlashes replaced⟩
    if containsC normalized '\x7b' then none else some (trimS normalized)
  else if includesS raw " => " then
    match (splitStr raw " => ").getLast? with
    | some last => some (trimS last)
    | none => none
  else some raw

/-- Embeds `normalizeNumstatFilename` of diff-parser.ts: same as the log-parser
variant, except the final fallthrough trims and maps "" to `none`. -/
def normalizeNumstatFilename (raw : String) : Option String :=
  if containsC raw '\x7b' && includesS raw "=>" then
    let replaced :=
      match braceMatch raw.data with
      | some (b, cap, a) => b ++ cap ++ a
      | none => raw.data
    let normalized : String := ⟨collapseSlashes replaced⟩
    if containsC normalized '\x7b' then none else some (trimS normalized)
  else if includesS raw " => " then
    match (splitStr raw " => ").getLast? with
    | some last => some (trimS last)
    | none => none
  else
    let t := trimS raw
    if t = "" then none else some t

/-- JS `if (file) current.files.push(file)`: a null or empty result is dropped. -/
def pushFileJS (cur : Commit) (trimmed : String) : Commit :=
  match normalizeFilename trimmed with
  | some f => if f = "" then cur else { cur with files := cur.files ++ [f] }
  | none => cur

/-- Embeds `parseCommitOutput` of log-parser.ts: fold over lines; a `COMMIT|` header
opens a new commit record (flushing the previous one), any other non-blank
line is a changed-file line of the current commit. -/
def parseCommitOutput (output : String) : List Commit :=
  let step := fun (acc : List Commit × Option Commit) (line : String) =>
    let trimmed := trimS line
    if startsWithS trimmed "COMMIT|" then
      let parts := splitStr trimmed "|"
      let newC : Commit :=
        { hash := (parts.get? 1).getD ""
          author := (parts.get? 2).getD ""
          timestamp := parseIntD ((parts.get? 3).getD "0")
          subject := joinS (parts.drop 4) "|"
          files := [] }
      (match acc.2 with
       | some cur => acc.1 ++ [cur]
       | none => acc.1, some newC)
    else if trimmed ≠ "" then
      match acc.2 with
      | some cur => (acc.1, some (pushFileJS cur trimmed))
      | none => acc
    else acc
  let fin := (splitStr output "\n").foldl step ([], none)
  match fin.2 with
  | some cur => fin.1 ++ [cur]
  | none => fin.1

/-- Embeds `parseNumstatOutput` of diff-parser.ts: accumulate additions/deletions
per normalized filename from `<added>\t<deleted>\t<filename>` lines,
skipping binary (`-`) and malformed lines. -/
def parseNumstatOutput (output : String) : List (String × DiffStats) :=
  (splitStr output "\n").foldl
    (fun stats line =>
      let trimmed := trimS line
      if trimmed = "" || startsWithS trimmed "COMMIT|" then stats
      else
        let parts := splitStr trimmed "\t"
        if parts.length < 3 then stats
        else if (parts.get? 0).getD "" = "-" || (parts.get? 1).getD "" = "-" then
          stats
        else
          match parseIntJS ((parts.get? 0).getD "0"),
                parseIntJS ((parts.get? 1).getD "0") with
          | some additions, some deletions =>
            let rawFilename := (parts.get? 2).getD ""
            if rawFilename = "" then stats
            else
              match normalizeNumstatFilename rawFilename with
              | some filename =>
                if filename = "" then stats
                else
                  let existing := lookupD stats filename ⟨0, 0⟩
                  setA stats filename
                    ⟨existing.additions + additions, existing.deletions + deletions⟩
              | none => stats
          | _, _ => stats)
    []

/-! ### Claim-side (spec-worded) predicates, for refutation of C4 and C5 -/

/-- The claim's wording for revert classification: the trimmed subject starts
with the string "revert", compared case-insensitively — with no word-boundary
requirement. -/
def specStartsWithRevert (s : String) : Bool :=
  isPrefixL "revert".data ((trimChars s.data).map Char.toLower)

/-- The claim's wording for a "large" commit: it touches more than 30 files
of the filtered file list. -/
def specLargeFiltered (c : Commit) (files : List String) : Bool :=
  (c.files.filter (fun x => memS files x)).length > 30

/-- Occurrences of `f` in a changed-file list. -/
def countS (fs : List String) (f : String) : Nat :=
  (fs.filter (fun x => decide (x = f))).length

/-- Total number of touches of `f` over a commit list (with multiplicity,
exactly as the accumulation loops count). -/
def touchSum (cs : List Commit) (f : String) : Nat :=
  (cs.map (fun c => countS c.files f)).sum

/-! ### Fold lemmas for the accumulation loops -/

theorem jround_bounds {q : ℚ} (h0 : 0 ≤ q) (h1 : q ≤ 100) :
    0 ≤ jround q ∧ jround q ≤ 100 := by
  constructor
  · exact Int.le_floor.mpr (by push_cast; linarith)
  · have h : (⌊q + 1/2⌋ : ℤ) < 101 := by
      rw [Int.floor_lt]; push_cast; linarith
    unfold jround; omega

theorem jround_zero : jround 0 = 0 := by
  unfold jround
  rw [zero_add, Int.floor_eq_zero_iff]
  constructor
  · norm_num
  · norm_num

theorem lookupA_setA_self {κ α : Type} [DecidableEq κ]
    (m : List (κ × α)) (k : κ) (v : α) : lookupA (setA m k v) k = some v := by
  induction m with
  | nil => simp [setA, lookupA]
  | cons p t ih =>
    by_cases h : p.1 = k
    · simp [setA, h, lookupA]
    · simp [setA, h, lookupA, ih]

theorem lookupA_setA_ne {κ α : Type} [DecidableEq κ]
    (m : List (κ × α)) (k k' : κ) (v : α) (h : k ≠ k') :
    lookupA (setA m k v) k' = lookupA m k' := by
  induction m with
  | nil => simp [setA, lookupA, h]
  | cons p t ih =>
    by_cases hp : p.1 = k
    · simp [setA, hp, lookupA, h]
    · simp [setA, hp, lookupA, ih]

theorem lookupD_bump {κ : Type} [DecidableEq κ] (m : List (κ × Nat)) (k f : κ) :
    lookupD (bump m k) f 0 = lookupD m f 0 + (if k = f then 1 else 0) := by
  by_cases h : k = f
  · subst h
    simp [bump, lookupD, lookupA_setA_self]
  · simp [bump, lookupD, lookupA_setA_ne m k f _ h, h]

theorem mem_setA {κ α : Type} [DecidableEq κ]
    {m : List (κ × α)} {k : κ} {v : α} {p : κ × α} (h : p ∈ setA m k v) :
    p = (k, v) ∨ p ∈ m := by
  induction m with
  | nil => simpa [setA] using h
  | cons q t ih =>
    by_cases hq : q.1 = k
    · simp only [setA, if_pos hq, List.mem_cons] at h
      rcases h with h | h
      · exact Or.inl h
      · exact Or.inr (List.mem_cons_of_mem q h)
    · simp only [setA, if_neg hq, List.mem_cons] at h
      rcases h with h | h
      · exact Or.inr (h ▸ List.mem_cons_self q t)
      · rcases ih h with h' | h'
        · exact Or.inl h'
        · exact Or.inr (List.mem_cons_of_mem q h')

theorem mem_of_lookupA {κ α : Type} [DecidableEq κ]
    {m : List (κ × α)} {k : κ} {v : α} (h : lookupA m k = some v) : (k, v) ∈ m := by
  induction m with
  | nil => simp [lookupA] at h
  | cons p t ih =>
    by_cases hp : p.1 = k
    · simp only [lookupA, if_pos hp, Option.some.injEq] at h
      subst h
      rw [← hp]
      exact List.mem_cons_self p t
    · simp only [lookupA, if_neg hp] at h
      exact List.mem_cons_of_mem p (ih h)

/-- Lookup in a map built by mapping a value function over a key list:
the entry for any listed key is its computed value. -/
theorem lookupA_map_keys {α : Type} (files : List String) (g : String → α)
    {f : String} (hf : f ∈ files) :
    lookupA (files.map (fun x => (x, g x))) f = some (g f) := by
  induction files with
  | nil => cases hf
  | cons x t ih =>
    rcases List.mem_cons.mp hf with h | h
    · subst h; simp [lookupA]
    · by_cases hx : x = f
      · subst hx; simp [lookupA]
      · simp [lookupA, hx, ih h]

theorem memS_true_of_mem {files : List String} {f : String} (h : f ∈ files) :
    memS files f = true := by
  simp only [memS, List.any_eq_true, decide_eq_true_eq]
  exact ⟨f, h, rfl⟩



theorem countS_cons (x : String) (t : List String) (f : String) :
    countS (x :: t) f = countS t f + (if x = f then 1 else 0) := by
  by_cases h : x = f <;> simp [countS, List.filter, h]

theorem countS_eq_zero {fs : List String} {f : String} (h : f ∉ fs) :
    countS fs f = 0 := by
  induction fs with
  | nil => rfl
  | cons x t ih =>
    rw [countS_cons]
    have hx : x ≠ f := fun e => h (e ▸ List.mem_cons_self x t)
    have ht : f ∉ t := fun e => h (List.mem_cons_of_mem x e)
    simp [hx, ih ht]

theorem lookupD_inner_fold (fs : List String) (cond : String → Bool)
    (m : List (String × Nat)) (f : String) :
    lookupD (fs.foldl (fun m x => if cond x then bump m x else m) m) f 0
      = lookupD m f 0 + (if cond f then countS fs f else 0) := by
  induction fs generalizing m with
  | nil => simp [countS]
  | cons x t ih =>
    rw [List.foldl_cons, ih, countS_cons]
    by_cases hc : cond x
    · rw [if_pos hc, lookupD_bump]
      by_cases hx : x = f
      · subst hx
        simp [hc]
        omega
      · simp [hx]
    · rw [if_neg hc]
      by_cases hx : x = f
      · subst hx
        simp [hc]
      · simp [hx]

/-- Master lemma for the double counting loops: the final count of a file is
the number of its touches by commits satisfying the per-commit predicate. -/
theorem lookupD_commits_fold (cs : List Commit) (keep : Commit → String → Bool)
    (m : List (String × Nat)) (f : String) :
    lookupD (cs.foldl
        (fun m c => c.files.foldl
          (fun m x => if keep c x then bump m x else m) m) m) f 0
      = lookupD m f 0
        + (cs.map (fun c => if keep c f then countS c.files f else 0)).sum := by
  induction cs generalizing m with
  | nil => simp
  | cons c t ih =>
    rw [List.foldl_cons, ih, lookupD_inner_fold]
    simp [add_assoc]

theorem sum_if_filter {α : Type} (cs : List α) (p : α → Bool) (g : α → Nat) :
    (cs.map (fun c => if p c then g c else 0)).sum = ((cs.filter p).map g).sum := by
  induction cs with
  | nil => rfl
  | cons c t ih =>
    by_cases h : p c <;> simp [List.filter, h, ih]

/-- A fold step that only ever writes other keys leaves a lookup unchanged. -/
theorem lookupA_inner_untouched {α : Type} (fs : List String)
    (cond : String → Bool) (v : List (String × α) → String → α)
    (m : List (String × α)) (f : String) (hf : f ∉ fs) :
    lookupA (fs.foldl (fun m x => if cond x then setA m x (v m x) else m) m) f
      = lookupA m f := by
  induction fs generalizing m with
  | nil => rfl
  | cons x t ih =>
    have hx : x ≠ f := fun e => hf (e ▸ List.mem_cons_self x t)
    have ht : f ∉ t := fun e => hf (List.mem_cons_of_mem x e)
    rw [List.foldl_cons, ih _ ht]
    by_cases hc : cond x
    · rw [if_pos hc, lookupA_setA_ne _ _ _ _ hx]
    · rw [if_neg hc]

theorem lookupA_commits_fold_untouched {α : Type} (cs : List Commit)
    (step : List (String × α) → Commit → List (String × α)) (f : String)
    (h : ∀ m c, c ∈ cs → lookupA (step m c) f = lookupA m f)
    (m : List (String × α)) :
    lookupA (cs.foldl step m) f = lookupA m f := by
  induction cs generalizing m with
  | nil => rfl
  | cons c t ih =>
    have hh : ∀ m c', c' ∈ t → lookupA (step m c') f = lookupA m f :=
      fun m c' hc => h m c' (List.mem_cons_of_mem _ hc)
    rw [List.foldl_cons, ih hh (step m c), h m c (List.mem_cons_self c t)]

/-- A fold on a pair whose components evolve independently splits. -/
theorem foldl_prod_split {α β γ : Type} (l : List γ)
    (g1 : α → γ → α) (g2 : β → γ → β) (a : α) (b : β) :
    l.foldl (fun p x => (g1 p.1 x, g2 p.2 x)) (a, b)
      = (l.foldl g1 a, l.foldl g2 b) := by
  induction l generalizing a b with
  | nil => rfl
  | cons x t ih => simp [ih]

theorem init_le_foldl_max {α : Type} [LinearOrder α] (l : List α) (b : α) :
    b ≤ l.foldl max b := by
  induction l generalizing b with
  | nil => exact le_refl b
  | cons x t ih =>
    rw [List.foldl_cons]
    exact le_trans (le_max_left b x) (ih (max b x))

theorem le_foldl_max {α : Type} [LinearOrder α] {l : List α} {a : α}
    (h : a ∈ l) (b : α) : a ≤ l.foldl max b := by
  induction l generalizing b with
  | nil => cases h
  | cons x t ih =>
    rw [List.foldl_cons]
    rcases List.mem_cons.mp h with rfl | h'
    · exact le_trans (le_max_right b a) (init_le_foldl_max t (max b a))
    · exact ih h' (max b x)

theorem lookupD_of_none {κ α : Type} [DecidableEq κ] {m : List (κ × α)} {k : κ}
    (d : α) (h : lookupA m k = none) : lookupD m k d = d := by
  have := congrArg (fun o : Option α => o.getD d) h
  exact this

theorem lookupA_map_values {α β : Type} (l : List (String × α)) (h : α → β)
    (f : String) :
    lookupA (l.map (fun p => (p.1, h p.2))) f = (lookupA l f).map h := by
  induction l with
  | nil => rfl
  | cons p t ih =>
    by_cases hp : p.1 = f <;> simp [lookupA, hp, ih]

theorem lookupA_foldl_keys {α : Type} (files : List String) (g : String → α)
    (m0 : List (String × α)) (f : String) :
    lookupA (files.foldl (fun m x => setA m x (g x)) m0) f
      = if f ∈ files then some (g f) else lookupA m0 f := by
  induction files generalizing m0 with
  | nil => simp
  | cons x t ih =>
    rw [List.foldl_cons, ih (setA m0 x (g x))]
    by_cases ht : f ∈ t
    · simp [ht, List.mem_cons]
    · by_cases hx : x = f
      · subst hx
        simp [ht, lookupA_setA_self]
      · have hnx : f ∉ x :: t := by
          intro h
          rcases List.mem_cons.mp h with h' | h'
          · exact hx h'.symm
          · exact ht h'
        rw [if_neg ht, if_neg hnx, lookupA_setA_ne _ _ _ _ hx]

/-! ### Characterization of the per-file analyzer entries -/

/-- The standard counting loop computes `touchSum` for any listed file. -/
theorem countMap_lookupD (cs : List Commit) (files : List String)
    {f : String} (hf : f ∈ files) :
    lookupD (cs.foldl (fun m c => c.files.foldl
        (fun m x => if memS files x then bump m x else m) m) []) f 0
      = touchSum cs f := by
  rw [lookupD_commits_fold]
  simp only [lookupD, lookupA, Option.getD_none, memS_true_of_mem hf, if_true,
    touchSum, Nat.zero_add]

/-- The `analyzeReverts` entry for a listed file: the count is the number of
touches by revert-classified commits; the score normalizes it by some fixed
denominator. -/
theorem analyzeReverts_entry (commits : List Commit) (files : List String)
    {f : String} (hf : f ∈ files) :
    ∃ q : ℚ,
      lookupA (analyzeReverts commits files) f = some
        { revertCount :=
            touchSum (commits.filter (fun c => revertTest (trimS c.subject))) f
          revertScore :=
            jround (((touchSum (commits.filter
              (fun c => revertTest (trimS c.subject))) f : Nat) : ℚ) / q * 100) } := by
  simp only [analyzeReverts]
  rw [lookupA_map_keys _ _ hf, countMap_lookupD _ _ hf]
  exact ⟨_, rfl⟩

/-- The `analyzeBugCorrelation` entry for a listed file. -/
theorem analyzeBugCorrelation_entry (commits : List Commit) (files : List String)
    {f : String} (hf : f ∈ files) :
    ∃ q : ℚ,
      lookupA (analyzeBugCorrelation commits files) f = some
        { bugCommits := touchSum (commits.filter (fun c => bugTest c.subject)) f
          bugScore :=
            jround (((touchSum (commits.filter
              (fun c => bugTest c.subject)) f : Nat) : ℚ) / q * 100) } := by
  simp only [analyzeBugCorrelation]
  rw [lookupA_map_keys _ _ hf, countMap_lookupD _ _ hf]
  exact ⟨_, rfl⟩

theorem touchSum_eq_zero {cs : List Commit} {f : String}
    (h : ∀ c ∈ cs, f ∉ c.files) : touchSum cs f = 0 := by
  apply List.sum_eq_zero
  intro x hx
  rcases List.mem_map.mp hx with ⟨c, hc, rfl⟩
  exact countS_eq_zero (h c hc)

theorem jround_zero_div (q : ℚ) : jround (((0 : Nat) : ℚ) / q * 100) = 0 := by
  rw [Nat.cast_zero, zero_div, zero_mul, jround_zero]

/-- An untouched file's churn entry is the zero entry. -/
theorem analyzeChurn_untouched (decay : Int → ℚ) (now : Int)
    (commits : List Commit) (files : List String) {f : String} (hf : f ∈ files)
    (h : ∀ c ∈ commits, f ∉ c.files) :
    lookupA (analyzeChurn decay now commits files) f =
      some { commitCount := 0, weightedScore := 0, rawScore := 0 } := by
  simp only [analyzeChurn]
  rw [lookupA_map_keys _ _ hf]
  have hnone : lookupA (commits.foldl
      (fun m c => c.files.foldl
        (fun m x =>
          if memS files x then
            setA m x ((lookupD m x ((0 : Nat), (0 : ℚ))).1 + 1,
              (lookupD m x ((0 : Nat), (0 : ℚ))).2 + decay ((now - c.timestamp).tdiv 86400))
          else m) m) []) f = none := by
    rw [lookupA_commits_fold_untouched _ _ f
      (fun m c hc => lookupA_inner_untouched _ _ _ _ _ (h c hc))]
    rfl
  rw [lookupD_of_none _ hnone]
  norm_num [jround_zero]

/-- An untouched file's author-silo entry is the worst-case default. -/
theorem analyzeAuthors_untouched (commits : List Commit) (files : List String)
    {f : String} (hf : f ∈ files) (h : ∀ c ∈ commits, f ∉ c.files) :
    lookupA (analyzeAuthors commits files) f =
      some { topAuthor := "unknown", topAuthorPercent := 100, authorCount := 1 } := by
  simp only [analyzeAuthors]
  rw [lookupA_map_keys _ _ hf]
  have hnone : lookupA (commits.foldl
      (fun m c => c.files.foldl
        (fun m x =>
          if memS files x then setA m x (bump (lookupD m x []) c.author) else m)
        m) []) f = none := by
    rw [lookupA_commits_fold_untouched _ _ f
      (fun m c hc => lookupA_inner_untouched _ _ _ _ _ (h c hc))]
    rfl
  rw [hnone]

/-- The burst entry for any listed file, as a function of its collected
timestamp list. -/
theorem analyzeBursts_entry (commits : List Commit) (files : List String)
    {f : String} (hf : f ∈ files) :
    ∃ q : ℚ,
      lookupA (analyzeBursts commits files) f = some
        (mkBurstEntry q
          (burstScan (sortAsc (lookupD (fileTimestampsMap commits files) f [])))) := by
  simp only [analyzeBursts]
  rw [lookupA_map_values, lookupA_foldl_keys, if_pos hf]
  exact ⟨_, rfl⟩

/-- An untouched file's burst entry is the zero entry. -/
theorem analyzeBursts_untouched (commits : List Commit) (files : List String)
    {f : String} (hf : f ∈ files) (h : ∀ c ∈ commits, f ∉ c.files) :
    lookupA (analyzeBursts commits files) f =
      some { burstIncidents := 0, burstScore := 0 } := by
  obtain ⟨q, hq⟩ := analyzeBursts_entry commits files hf
  have hnone : lookupA (fileTimestampsMap commits files) f = none := by
    unfold fileTimestampsMap
    rw [lookupA_commits_fold_untouched _ _ f
      (fun m c hc => lookupA_inner_untouched _ _ _ _ _ (h c hc))]
    rfl
  rw [lookupD_of_none _ hnone] at hq
  have hmk : mkBurstEntry q (burstScan (sortAsc [])) =
      { burstIncidents := 0, burstScore := 0 } := by
    unfold mkBurstEntry burstScan sortAsc burstScanF
    simp [jround_zero]
  rw [hmk] at hq
  exact hq

/-- The single pass of `analyzeCommitQuality` that fills both count maps
splits into two independent counting folds. -/
theorem cqCounts_split (commits : List Commit) (files : List String) :
    (commits.foldl
      (fun (acc : List (String × Nat) × List (String × Nat)) c =>
        let isWip := isWipC c
        let isLarge := isLargeC c
        c.files.foldl
          (fun acc f =>
            if memS files f then
              ((if isWip then bump acc.1 f else acc.1),
               (if isLarge then bump acc.2 f else acc.2))
            else acc) acc)
      ([], []))
    = (commits.foldl (fun m c => c.files.foldl
        (fun m x => if memS files x && isWipC c then bump m x else m) m) [],
       commits.foldl (fun m c => c.files.foldl
        (fun m x => if memS files x && isLargeC c then bump m x else m) m) []) := by
  suffices hgen : ∀ (a b : List (String × Nat)),
      (commits.foldl
        (fun (acc : List (String × Nat) × List (String × Nat)) c =>
          c.files.foldl
            (fun acc f =>
              if memS files f then
                ((if isWipC c then bump acc.1 f else acc.1),
                 (if isLargeC c then bump acc.2 f else acc.2))
              else acc) acc)
        (a, b))
      = (commits.foldl (fun m c => c.files.foldl
          (fun m x => if memS files x && isWipC c then bump m x else m) m) a,
         commits.foldl (fun m c => c.files.foldl
          (fun m x => if memS files x && isLargeC c then bump m x else m) m) b) by
    exact hgen [] []
  induction commits with
  | nil => intro a b; rfl
  | cons c t ih =>
    intro a b
    have hfn : (fun (acc : List (String × Nat) × List (String × Nat)) f =>
        if memS files f then
          ((if isWipC c then bump acc.1 f else acc.1),
           (if isLargeC c then bump acc.2 f else acc.2))
        else acc)
      = (fun acc f =>
          ((if memS files f && isWipC c then bump acc.1 f else acc.1),
           (if memS files f && isLargeC c then bump acc.2 f else acc.2))) := by
      funext acc x
      by_cases h1 : memS files x <;> by_cases h2 : isWipC c <;>
        by_cases h3 : isLargeC c <;> simp [h1, h2, h3]
    rw [List.foldl_cons, List.foldl_cons, List.foldl_cons, hfn,
      foldl_prod_split c.files
        (fun m x => if memS files x && isWipC c then bump m x else m)
        (fun m x => if memS files x && isLargeC c then bump m x else m) a b]
    exact ih _ _

/-- The conditional counting loop computes the touch count over the commits
selected by the predicate. -/
theorem cq_lookupD (cs : List Commit) (files : List String) (p : Commit → Bool)
    {f : String} (hf : f ∈ files) :
    lookupD (cs.foldl (fun m c => c.files.foldl
        (fun m x => if memS files x && p c then bump m x else m) m) []) f 0
      = touchSum (cs.filter p) f := by
  rw [lookupD_commits_fold]
  simp only [lookupD, lookupA, Option.getD_none, memS_true_of_mem hf,
    Bool.true_and, Nat.zero_add]
  rw [sum_if_filter, touchSum]

theorem lookupD_le_max (m : List (String × Nat)) (f : String) (b : Nat) :
    lookupD m f 0 ≤ (m.map (fun p => p.2)).foldl max b := by
  cases hl : lookupA m f with
  | none => simp [lookupD, hl]
  | some v =>
    have hv : v ∈ m.map (fun p => p.2) :=
      List.mem_map.mpr ⟨(f, v), mem_of_lookupA hl, rfl⟩
    simpa [lookupD, hl] using le_foldl_max hv b

/-- The commit-quality entry for any listed file: the two counts are touch
counts over WIP-classified and large-classified commits, and the score
normalizes them by denominators that dominate them and are at least 1. -/
theorem analyzeCommitQuality_entry (commits : List Commit) (files : List String)
    {f : String} (hf : f ∈ files) :
    ∃ mw ml : Nat,
      lookupA (analyzeCommitQuality commits files) f = some
        { wipCommits := touchSum (commits.filter isWipC) f
          largeCommitCount := touchSum (commits.filter isLargeC) f
          commitQualityScore :=
            ((touchSum (commits.filter isWipC) f : Nat) : ℚ) / (mw : ℚ) * 60
              + ((touchSum (commits.filter isLargeC) f : Nat) : ℚ) / (ml : ℚ) * 40 }
      ∧ touchSum (commits.filter isWipC) f ≤ mw ∧ 1 ≤ mw
      ∧ touchSum (commits.filter isLargeC) f ≤ ml ∧ 1 ≤ ml := by
  simp only [analyzeCommitQuality, cqCounts_split]
  rw [lookupA_map_keys _ _ hf]
  rw [cq_lookupD _ _ _ hf, cq_lookupD _ _ _ hf]
  refine ⟨_, _, rfl, ?_, ?_, ?_, ?_⟩
  · rw [← cq_lookupD commits files isWipC hf]
    exact lookupD_le_max _ _ _
  · exact init_le_foldl_max _ _
  · rw [← cq_lookupD commits files isLargeC hf]
    exact lookupD_le_max _ _ _
  · exact init_le_foldl_max _ _

/-! ### Coupling lemmas -/

theorem pairKey_comm (a b : String) : pairKey a b = pairKey b a := by
  unfold pairKey
  rcases le_total a b with h | h
  · rcases eq_or_lt_of_le h with rfl | hlt
    · simp
    · rw [if_pos (le_of_lt hlt), if_neg (not_le.mpr hlt)]
  · rcases eq_or_lt_of_le h with rfl | hlt
    · simp
    · rw [if_neg (not_le.mpr hlt), if_pos (le_of_lt hlt)]

theorem mem_insertByCo {a e : CouplingEntry} {l : List CouplingEntry}
    (h : a ∈ insertByCo e l) : a = e ∨ a ∈ l := by
  induction l with
  | nil => simpa [insertByCo] using h
  | cons x t ih =>
    by_cases hx : x.coChanges ≥ e.coChanges
    · simp only [insertByCo, if_pos hx, List.mem_cons] at h
      rcases h with h | h
      · exact Or.inr (h ▸ List.mem_cons_self x t)
      · rcases ih h with h' | h'
        · exact Or.inl h'
        · exact Or.inr (List.mem_cons_of_mem x h')
    · simp only [insertByCo, if_neg hx, List.mem_cons] at h
      rcases h with h | h | h
      · exact Or.inl h
      · exact Or.inr (h ▸ List.mem_cons_self x t)
      · exact Or.inr (List.mem_cons_of_mem x h)

theorem mem_sortByCo {a : CouplingEntry} {l : List CouplingEntry}
    (h : a ∈ sortByCo l) : a ∈ l := by
  induction l with
  | nil => simp [sortByCo] at h
  | cons x t ih =>
    rcases mem_insertByCo (by simpa [sortByCo] using h) with h' | h'
    · exact h' ▸ List.mem_cons_self x t
    · exact List.mem_cons_of_mem x (ih (by simpa [sortByCo] using h'))

/-- Every pair emitted by `analyzeCoupling` survived the `coChanges < 3` cut. -/
theorem analyzeCoupling_coChanges (commits : List Commit) (files : List String) :
    ∀ e ∈ analyzeCoupling commits files, 3 ≤ e.coChanges := by
  intro e he
  have he' := mem_sortByCo (by simpa [analyzeCoupling] using he)
  rcases List.mem_filterMap.mp he' with ⟨kv, _, hkv⟩
  by_cases h3 : kv.2 < 3
  · simp [h3] at hkv
  · simp only [h3, if_false] at hkv
    cases hkv
    simpa using Nat.le_of_not_lt h3

/-- Symmetry: `strengthFor` does not depend on argument order. -/
theorem strengthFor_comm (commits : List Commit) (files : List String)
    (a b : String) :
    strengthFor commits files a b = strengthFor commits files b a := by
  unfold strengthFor
  rw [pairKey_comm]

theorem lookupD_setA {κ α : Type} [DecidableEq κ] (m : List (κ × α)) (k k' : κ)
    (v d : α) :
    lookupD (setA m k v) k' d = if k = k' then v else lookupD m k' d := by
  by_cases h : k = k'
  · subst h
    simp [lookupD, lookupA_setA_self]
  · simp [lookupD, lookupA_setA_ne m k k' v h, h]

/-- A file mentioned by no coupling entry keeps its initial score 0. -/
theorem getCouplingScores_zero (files : List String) (cl : List CouplingEntry)
    {f : String} (hf : f ∈ files)
    (h : ∀ e ∈ cl, e.fileA ≠ f ∧ e.fileB ≠ f) :
    lookupA (getCouplingScores files cl) f = some 0 := by
  unfold getCouplingScores
  have hinit : lookupA (files.map (fun x => (x, (0 : Int)))) f = some 0 :=
    lookupA_map_keys files (fun _ => (0 : Int)) hf
  revert hinit
  generalize files.map (fun x => (x, (0 : Int))) = scores
  induction cl generalizing scores with
  | nil => intro hinit; exact hinit
  | cons e t ih =>
    intro hinit
    have he := h e (List.mem_cons_self e t)
    have ht : ∀ e' ∈ t, e'.fileA ≠ f ∧ e'.fileB ≠ f :=
      fun e' he' => h e' (List.mem_cons_of_mem e he')
    rw [List.foldl_cons]
    apply ih ht
    have h1 : lookupA (if (lookupA scores e.fileA).isSome
        then setA scores e.fileA (max (lookupD scores e.fileA 0) e.strength)
        else scores) f = some 0 := by
      by_cases hs : (lookupA scores e.fileA).isSome
      · rw [if_pos hs, lookupA_setA_ne _ _ _ _ he.1]
        exact hinit
      · rw [if_neg hs]
        exact hinit
    by_cases hs2 : (lookupA (if (lookupA scores e.fileA).isSome
        then setA scores e.fileA (max (lookupD scores e.fileA 0) e.strength)
        else scores) e.fileB).isSome
    · rw [if_pos hs2, lookupA_setA_ne _ _ _ _ he.2]
      exact h1
    · rw [if_neg hs2]
      exact h1

theorem allPairs_mem {l : List String} {p : String × String}
    (h : p ∈ allPairs l) : p.1 ∈ l ∧ p.2 ∈ l := by
  induction l with
  | nil => simp [allPairs] at h
  | cons x t ih =>
    simp only [allPairs, List.mem_append, List.mem_map] at h
    rcases h with ⟨y, hy, rfl⟩ | h
    · exact ⟨List.mem_cons_self x t, List.mem_cons_of_mem x hy⟩
    · rcases ih h with ⟨h1, h2⟩
      exact ⟨List.mem_cons_of_mem x h1, List.mem_cons_of_mem x h2⟩

theorem pairKey_fst_or (a b : String) :
    (pairKey a b).1 = a ∨ (pairKey a b).1 = b := by
  unfold pairKey
  by_cases h : a ≤ b <;> simp [h]

theorem pairKey_snd_or (a b : String) :
    (pairKey a b).2 = a ∨ (pairKey a b).2 = b := by
  unfold pairKey
  by_cases h : a ≤ b <;> simp [h]

theorem mem_foldl_bump {ps : List (String × String)}
    {m : List ((String × String) × Nat)} {kv : (String × String) × Nat}
    (h : kv ∈ ps.foldl (fun m p => bump m (pairKey p.1 p.2)) m) :
    kv ∈ m ∨ ∃ p ∈ ps, kv.1 = pairKey p.1 p.2 := by
  induction ps generalizing m with
  | nil => exact Or.inl h
  | cons p t ih =>
    rw [List.foldl_cons] at h
    rcases ih h with h' | ⟨p', hp', hkey⟩
    · rcases mem_setA h' with h'' | h''
      · exact Or.inr ⟨p, List.mem_cons_self p t, by rw [h'']⟩
      · exact Or.inl h''
    · exact Or.inr ⟨p', List.mem_cons_of_mem p hp', hkey⟩

/-- If no commit touches `f`, no pair key in `couplingCounts` mentions `f`. -/
theorem couplingCounts_avoid (commits : List Commit) (files : List String)
    (f : String) (h : ∀ c ∈ commits, f ∉ c.files) :
    ∀ kv ∈ (couplingCounts commits files).1, kv.1.1 ≠ f ∧ kv.1.2 ≠ f := by
  unfold couplingCounts
  suffices hgen : ∀ (acc : List ((String × String) × Nat) × List (String × Nat)),
      (∀ kv ∈ acc.1, kv.1.1 ≠ f ∧ kv.1.2 ≠ f) →
      ∀ kv ∈ (commits.foldl
        (fun acc c =>
          let touched := c.files.filter (fun x => memS files x)
          let fc := touched.foldl (fun m x => bump m x) acc.2
          if touched.length > 20 then (acc.1, fc)
          else
            ((allPairs touched).foldl (fun m p => bump m (pairKey p.1 p.2)) acc.1,
             fc)) acc).1,
        kv.1.1 ≠ f ∧ kv.1.2 ≠ f by
    exact hgen ([], []) (by intro kv hkv; simp at hkv)
  induction commits with
  | nil => intro acc hacc kv hkv; exact hacc kv hkv
  | cons c t ih =>
    have hc : f ∉ c.files := h c (List.mem_cons_self c t)
    have ht : ∀ c' ∈ t, f ∉ c'.files := fun c' h' => h c' (List.mem_cons_of_mem c h')
    intro acc hacc
    rw [List.foldl_cons]
    apply ih ht
    intro kv hkv
    by_cases hlen : (c.files.filter (fun x => memS files x)).length > 20
    · simp only [hlen, if_true] at hkv
      exact hacc kv hkv
    · simp only [hlen, if_false] at hkv
      rcases mem_foldl_bump hkv with h' | ⟨p, hp, hkey⟩
      · exact hacc kv h'
      · have hmem := allPairs_mem hp
        have h1 : p.1 ≠ f := fun e => hc (List.mem_of_mem_filter (e ▸ hmem.1))
        have h2 : p.2 ≠ f := fun e => hc (List.mem_of_mem_filter (e ▸ hmem.2))
        constructor
        · rw [hkey]
          rcases pairKey_fst_or p.1 p.2 with h' | h' <;> rw [h']
          · exact h1
          · exact h2
        · rw [hkey]
          rcases pairKey_snd_or p.1 p.2 with h' | h' <;> rw [h']
          · exact h1
          · exact h2

/-- If no commit touches `f`, no emitted coupling entry mentions `f`. -/
theorem analyzeCoupling_avoid (commits : List Commit) (files : List String)
    (f : String) (h : ∀ c ∈ commits, f ∉ c.files) :
    ∀ e ∈ analyzeCoupling commits files, e.fileA ≠ f ∧ e.fileB ≠ f := by
  intro e he
  have he' := mem_sortByCo (by simpa [analyzeCoupling] using he)
  rcases List.mem_filterMap.mp he' with ⟨kv, hkv, hmk⟩
  have havoid := couplingCounts_avoid commits files f h kv hkv
  by_cases h3 : kv.2 < 3
  · simp [h3] at hmk
  · simp only [h3, if_false] at hmk
    cases hmk
    exact havoid

theorem lookupA_setA_isSome {κ α : Type} [DecidableEq κ] {m : List (κ × α)}
    {k f : κ} {v : α} (h : (lookupA m f).isSome) :
    (lookupA (setA m k v) f).isSome := by
  by_cases hk : k = f
  · subst hk
    rw [lookupA_setA_self]
    rfl
  · rw [lookupA_setA_ne _ _ _ _ hk]
    exact h

/-- Totality: `getCouplingScores` has an entry for every listed file. -/
theorem getCouplingScores_isSome (files : List String) (cl : List CouplingEntry)
    {f : String} (hf : f ∈ files) :
    (lookupA (getCouplingScores files cl) f).isSome := by
  unfold getCouplingScores
  have hinit : (lookupA (files.map (fun x => (x, (0 : Int)))) f).isSome := by
    rw [lookupA_map_keys files (fun _ => (0 : Int)) hf]
    rfl
  revert hinit
  generalize files.map (fun x => (x, (0 : Int))) = scores
  induction cl generalizing scores with
  | nil => intro hinit; exact hinit
  | cons e t ih =>
    intro hinit
    rw [List.foldl_cons]
    apply ih
    have step : ∀ (m : List (String × Int)) (k : String) (v : Int) (P : Prop)
        [Decidable P], (lookupA m f).isSome →
        (lookupA (if P then setA m k v else m) f).isSome := by
      intro m k v P hP h
      split
      · exact lookupA_setA_isSome h
      · exact h
    exact step _ _ _ _ (step _ _ _ _ hinit)

/-- All per-file coupling scores stay within the strengths' range [0, 100]. -/
theorem getCouplingScores_bounds (files : List String) (cl : List CouplingEntry)
    (h : ∀ e ∈ cl, 0 ≤ e.strength ∧ e.strength ≤ 100) (k : String) :
    0 ≤ lookupD (getCouplingScores files cl) k 0
      ∧ lookupD (getCouplingScores files cl) k 0 ≤ 100 := by
  unfold getCouplingScores
  have hinit : ∀ k', 0 ≤ lookupD (files.map (fun x => (x, (0 : Int)))) k' 0
      ∧ lookupD (files.map (fun x => (x, (0 : Int)))) k' 0 ≤ 100 := by
    intro k'
    cases hl : lookupA (files.map (fun x => (x, (0 : Int)))) k' with
    | none => simp [lookupD, hl]
    | some v =>
      have := mem_of_lookupA hl
      rcases List.mem_map.mp this with ⟨x, _, hx⟩
      have hv : v = 0 := by
        have := congrArg Prod.snd hx
        simpa using this.symm
      simp [lookupD, hl, hv]
  revert hinit
  generalize files.map (fun x => (x, (0 : Int))) = scores
  induction cl generalizing scores with
  | nil => intro hinit; exact hinit k
  | cons e t ih =>
    intro hinit
    have he := h e (List.mem_cons_self e t)
    have ht : ∀ e' ∈ t, 0 ≤ e'.strength ∧ e'.strength ≤ 100 :=
      fun e' h' => h e' (List.mem_cons_of_mem e h')
    rw [List.foldl_cons]
    have hstep : ∀ (m : List (String × Int)) (kk : String) (v : Int) (P : Prop)
        [Decidable P], 0 ≤ v → v ≤ 100 →
        (∀ k', 0 ≤ lookupD m k' 0 ∧ lookupD m k' 0 ≤ 100) →
        (∀ k', 0 ≤ lookupD (if P then setA m kk v else m) k' 0
          ∧ lookupD (if P then setA m kk v else m) k' 0 ≤ 100) := by
      intro m kk v P hP h0 h100 hm k'
      split
      · rw [lookupD_setA]
        split
        · exact ⟨h0, h100⟩
        · exact hm k'
      · exact hm k'
    have h1 := hstep scores e.fileA (max (lookupD scores e.fileA 0) e.strength)
      ((lookupA scores e.fileA).isSome = true)
      (le_max_of_le_right he.1) (max_le (hinit e.fileA).2 he.2) hinit
    exact ih ht _ (hstep _ e.fileB (max (lookupD scores e.fileB 0) e.strength) _
      (le_max_of_le_right he.1) (max_le (hinit e.fileB).2 he.2) h1)

/-! ### Scorer lemmas -/

theorem sumWeights_normWeights (w : Weights) (hs : sumWeights w ≠ 0) :
    sumWeights (normWeights w) = 1 := by
  have hs' : w.churn + w.bugs + w.reverts + w.bursts + w.coupling + w.silo
      + w.commitQuality ≠ 0 := hs
  unfold sumWeights normWeights
  simp only [div_add_div_same]
  exact div_self hs'

theorem lookup_field_bounds {α β : Type} [Preorder β] (m : List (String × α))
    (fb : α) (g : α → β) (lo hi : β)
    (h : ∀ p ∈ m, lo ≤ g p.2 ∧ g p.2 ≤ hi) (h0 : lo ≤ g fb ∧ g fb ≤ hi)
    (file : String) :
    lo ≤ g ((lookupA m file).getD fb) ∧ g ((lookupA m file).getD fb) ≤ hi := by
  cases hl : lookupA m file with
  | none => simpa using h0
  | some v => simpa using h (file, v) (mem_of_lookupA hl)

/-! ### Claim theorems -/

/-- C9: for every integer score, `getTier` assigns CRITICAL exactly on
scores ≥ 75, HIGH exactly on [50, 75), MEDIUM exactly on [25, 50), and LOW
exactly below 25. -/
theorem C9_tier_thresholds (s : Int) :
    (getTier s = Tier.CRITICAL ↔ 75 ≤ s)
    ∧ (getTier s = Tier.HIGH ↔ 50 ≤ s ∧ s < 75)
    ∧ (getTier s = Tier.MEDIUM ↔ 25 ≤ s ∧ s < 50)
    ∧ (getTier s = Tier.LOW ↔ s < 25) := by
  unfold getTier
  split_ifs with h1 h2 h3 <;> refine ⟨?_, ?_, ?_, ?_⟩ <;> constructor <;>
    intro h <;> first | omega | simp_all

/-- C3: for a file touched at hour offsets [0, 1, 2, 30, 31, 32, 33],
`analyzeBursts` reports exactly 2 burst incidents — the maximal ≥3-commit
runs within a 24-hour window of their first member, with the scan resuming
past a confirmed run, never counting overlapping windows. -/
theorem C3_burst_scenario_two_incidents :
    (lookupA (analyzeBursts
      ([0, 1, 2, 30, 31, 32, 33].map (fun h =>
        ({ hash := "h", author := "dev", timestamp := (h : Int) * 3600,
           subject := "work", files := ["f"] } : Commit)))
      ["f"]) "f").map (fun d => d.burstIncidents) = some 2 := by
  decide

/-- C8: a filtered file touched by no commit gets the author-silo entry
`{topAuthor := "unknown", topAuthorPercent := 100, authorCount := 1}`, and
therefore a silo component score of 100 (not 0) at the scorer. -/
theorem C8_untouched_file_silo_default (commits : List Commit)
    (files : List String) (input : ScoringInput) (f : String) (hf : f ∈ files)
    (huntouched : ∀ c ∈ commits, f ∉ c.files)
    (hsilo : input.siloData = analyzeAuthors commits files) :
    lookupA (analyzeAuthors commits files) f =
      some { topAuthor := "unknown", topAuthorPercent := 100, authorCount := 1 }
    ∧ ∃ r ∈ scoreHotspots files input, r.file = f ∧ r.siloScore = 100 := by
  refine ⟨analyzeAuthors_untouched commits files hf huntouched, ?_⟩
  unfold scoreHotspots
  refine ⟨_, List.mem_map.mpr ⟨f, hf, rfl⟩, rfl, ?_⟩
  dsimp only
  rw [hsilo, analyzeAuthors_untouched commits files hf huntouched]
  rfl

/-- C10: every `commitQualityScore` lies in [0, 100] with no explicit clamp:
each file's WIP and large counts are dominated by the across-files maxima
used as denominators, so `(wip/maxWip)*60 + (large/maxLarge)*40 ≤ 100`. -/
theorem C10_commit_quality_score_range (commits : List Commit)
    (files : List String) (f : String) (hf : f ∈ files) :
    ∃ d, lookupA (analyzeCommitQuality commits files) f = some d
      ∧ 0 ≤ d.commitQualityScore ∧ d.commitQualityScore ≤ 100 := by
  obtain ⟨mw, ml, hent, hwle, hw1, hlle, hl1⟩ :=
    analyzeCommitQuality_entry commits files hf
  refine ⟨_, hent, ?_, ?_⟩
  · dsimp only
    positivity
  · dsimp only
    have hmw : (0 : ℚ) < (mw : ℚ) := by exact_mod_cast Nat.lt_of_lt_of_le Nat.zero_lt_one hw1
    have hml : (0 : ℚ) < (ml : ℚ) := by exact_mod_cast Nat.lt_of_lt_of_le Nat.zero_lt_one hl1
    have h1 : ((touchSum (commits.filter isWipC) f : Nat) : ℚ) / (mw : ℚ) ≤ 1 :=
      (div_le_one hmw).mpr (by exact_mod_cast hwle)
    have h2 : ((touchSum (commits.filter isLargeC) f : Nat) : ℚ) / (ml : ℚ) ≤ 1 :=
      (div_le_one hml).mpr (by exact_mod_cast hlle)
    nlinarith [h1, h2]

/-- C2: every per-file analyzer returns an entry for every file of the
filtered list, and files untouched by any commit satisfying the analyzer's
predicate get the analyzer's default/zero entry. -/
theorem C2_analyzers_total_with_zero_defaults (decay : Int → ℚ) (now : Int)
    (commits : List Commit) (files : List String) (f : String) (hf : f ∈ files) :
    (∃ d, lookupA (analyzeChurn decay now commits files) f = some d)
    ∧ (∃ d, lookupA (analyzeBugCorrelation commits files) f = some d)
    ∧ (∃ d, lookupA (analyzeReverts commits files) f = some d)
    ∧ (∃ d, lookupA (analyzeBursts commits files) f = some d)
    ∧ (∃ d, lookupA (analyzeAuthors commits files) f = some d)
    ∧ (∃ d, lookupA (analyzeCommitQuality commits files) f = some d)
    ∧ (∃ v, lookupA (getCouplingScores files (analyzeCoupling commits files)) f
        = some v)
    ∧ ((∀ c ∈ commits, f ∉ c.files) →
        lookupA (analyzeChurn decay now commits files) f =
          some { commitCount := 0, weightedScore := 0, rawScore := 0 })
    ∧ ((∀ c ∈ commits, bugTest c.subject → f ∉ c.files) →
        lookupA (analyzeBugCorrelation commits files) f =
          some { bugCommits := 0, bugScore := 0 })
    ∧ ((∀ c ∈ commits, revertTest (trimS c.subject) → f ∉ c.files) →
        lookupA (analyzeReverts commits files) f =
          some { revertCount := 0, revertScore := 0 })
    ∧ ((∀ c ∈ commits, f ∉ c.files) →
        lookupA (analyzeBursts commits files) f =
          some { burstIncidents := 0, burstScore := 0 })
    ∧ ((∀ c ∈ commits, f ∉ c.files) →
        lookupA (analyzeAuthors commits files) f =
          some { topAuthor := "unknown", topAuthorPercent := 100, authorCount := 1 })
    ∧ ((∀ c ∈ commits, (isWipC c || isLargeC c) → f ∉ c.files) →
        lookupA (analyzeCommitQuality commits files) f =
          some { wipCommits := 0, largeCommitCount := 0, commitQualityScore := 0 })
    ∧ ((∀ c ∈ commits, f ∉ c.files) →
        lookupA (getCouplingScores files (analyzeCoupling commits files)) f
          = some 0) := by
  obtain ⟨qb, hqb⟩ := analyzeBugCorrelation_entry commits files hf
  obtain ⟨qr, hqr⟩ := analyzeReverts_entry commits files hf
  obtain ⟨qbu, hqbu⟩ := analyzeBursts_entry commits files hf
  obtain ⟨mw, ml, hcq, _, _, _, _⟩ := analyzeCommitQuality_entry commits files hf
  refine ⟨?_, ⟨_, hqb⟩, ⟨_, hqr⟩, ⟨_, hqbu⟩, ?_, ⟨_, hcq⟩, ?_, ?_, ?_, ?_, ?_, ?_, ?_, ?_⟩
  · simp only [analyzeChurn]
    rw [lookupA_map_keys _ _ hf]
    exact ⟨_, rfl⟩
  · simp only [analyzeAuthors]
    rw [lookupA_map_keys _ _ hf]
    exact ⟨_, rfl⟩
  · have := getCouplingScores_isSome files (analyzeCoupling commits files) hf
    exact Option.isSome_iff_exists.mp this
  · exact fun h => analyzeChurn_untouched decay now commits files hf h
  · intro h
    have hz : touchSum (commits.filter (fun c => bugTest c.subject)) f = 0 := by
      apply touchSum_eq_zero
      intro c hc
      have hc' := List.mem_filter.mp hc
      exact h c hc'.1 hc'.2
    rw [hz] at hqb
    simpa [jround_zero_div, jround_zero] using hqb
  · intro h
    have hz : touchSum (commits.filter (fun c => revertTest (trimS c.subject))) f
        = 0 := by
      apply touchSum_eq_zero
      intro c hc
      have hc' := List.mem_filter.mp hc
      exact h c hc'.1 hc'.2
    rw [hz] at hqr
    simpa [jround_zero_div, jround_zero] using hqr
  · exact fun h => analyzeBursts_untouched commits files hf h
  · exact fun h => analyzeAuthors_untouched commits files hf h
  · intro h
    have hzw : touchSum (commits.filter isWipC) f = 0 := by
      apply touchSum_eq_zero
      intro c hc
      have hc' := List.mem_filter.mp hc
      exact h c hc'.1 (by rw [hc'.2]; rfl)
    have hzl : touchSum (commits.filter isLargeC) f = 0 := by
      apply touchSum_eq_zero
      intro c hc
      have hc' := List.mem_filter.mp hc
      exact h c hc'.1 (by rw [hc'.2]; simp)
    rw [hzw, hzl] at hcq
    simpa using hcq
  · intro h
    exact getCouplingScores_zero files _ hf (analyzeCoupling_avoid commits files f h)

/-- C4 counterexample: the subject "reverting broken build" starts with
"revert" case-insensitively, yet `analyzeReverts` does not classify the
commit as a revert (the regex `/^revert\b/i` requires a word boundary), so
the touched file's revertCount stays 0. -/
theorem C4_counterexample :
    specStartsWithRevert "reverting broken build" = true
    ∧ (lookupA (analyzeReverts
        [{ hash := "a1", author := "dev", timestamp := 0,
           subject := "reverting broken build", files := ["src/app.ts"] }]
        ["src/app.ts"]) "src/app.ts").map (fun d => d.revertCount) = some 0 := by
  constructor
  · decide
  · decide

/-- C4 (amended): a commit is revert-classified exactly when its trimmed
subject starts with "revert" as a whole word — "revert" followed by a
non-word character or the end of the subject, case-insensitively
(`/^revert\b/i`) — and every such commit counts toward the revertCount of
every filtered file it touches: the count is exactly the number of touches
by revert-classified commits. -/
theorem C4_amended_revert_word_boundary (commits : List Commit)
    (files : List String) (f : String) (hf : f ∈ files) :
    (lookupA (analyzeReverts commits files) f).map (fun d => d.revertCount)
      = some (touchSum
          (commits.filter (fun c => revertTest (trimS c.subject))) f) := by
  obtain ⟨q, hq⟩ := analyzeReverts_entry commits files hf
  rw [hq]
  rfl

theorem C4_witness :
    ("a.ts" ∈ ["a.ts"])
    ∧ (lookupA (analyzeReverts
        [{ hash := "a2", author := "dev", timestamp := 0,
           subject := "Revert \"feature\"", files := ["a.ts"] }] ["a.ts"])
        "a.ts").map (fun d => d.revertCount)
      = some (touchSum
          ([{ hash := "a2", author := "dev", timestamp := 0,
              subject := "Revert \"feature\"", files := ["a.ts"] }].filter
            (fun c => revertTest (trimS c.subject))) "a.ts") :=
  ⟨by decide, C4_amended_revert_word_boundary _ _ _ (by decide)⟩

/-- C5 counterexample: a commit touching 31 files of which only one is in
the filtered list is still classified "large" (the code tests
`commit.files.length > 30` on the unfiltered list), contradicting the
claim's "more than 30 filtered files" reading. -/
theorem C5_counterexample :
    specLargeFiltered
      { hash := "b1", author := "dev", timestamp := 0,
        subject := "Refactor module boundaries",
        files := "a.ts" :: (List.range 30).map (fun i => "gen/f" ++ toString i) }
      ["a.ts"] = false
    ∧ (lookupA (analyzeCommitQuality
        [{ hash := "b1", author := "dev", timestamp := 0,
           subject := "Refactor module boundaries",
           files := "a.ts" :: (List.range 30).map (fun i => "gen/f" ++ toString i) }]
        ["a.ts"]) "a.ts").map (fun d => d.largeCommitCount) = some 1 := by
  constructor
  · decide
  · decide

/-- C5 (amended): a commit is "large" exactly when the total number of files
it touches — filtered or not — exceeds 30 (`commit.files.length > 30`); the
largeCommitCount of a filtered file is the number of its touches by such
commits. -/
theorem C5_amended_large_total_files (commits : List Commit)
    (files : List String) (f : String) (hf : f ∈ files) :
    (lookupA (analyzeCommitQuality commits files) f).map
        (fun d => d.largeCommitCount)
      = some (touchSum (commits.filter isLargeC) f) := by
  obtain ⟨mw, ml, hcq, _, _, _, _⟩ := analyzeCommitQuality_entry commits files hf
  rw [hcq]
  rfl

theorem C5_witness :
    ("a.ts" ∈ ["a.ts"])
    ∧ (lookupA (analyzeCommitQuality
        [{ hash := "b1", author := "dev", timestamp := 0,
           subject := "Refactor module boundaries",
           files := "a.ts" :: (List.range 30).map (fun i => "gen/f" ++ toString i) }]
        ["a.ts"]) "a.ts").map (fun d => d.largeCommitCount)
      = some (touchSum
          ([{ hash := "b1", author := "dev", timestamp := 0,
              subject := "Refactor module boundaries",
              files := "a.ts" :: (List.range 30).map (fun i => "gen/f" ++ toString i) }].filter
            isLargeC) "a.ts") :=
  ⟨by decide, C5_amended_large_total_files _ _ _ (by decide)⟩

/-- C6: the coupling strength of an unordered pair is symmetric in argument
order; every pair emitted by `analyzeCoupling` has at least 3 co-changes
(a pair below the cut is absent, i.e. its strength is 0); and a file in no
surviving pair gets per-file coupling score 0 from `getCouplingScores`. -/
theorem C6_coupling_symmetry_threshold_default (commits : List Commit)
    (files : List String) :
    (∀ a b, strengthFor commits files a b = strengthFor commits files b a)
    ∧ (∀ e ∈ analyzeCoupling commits files, 3 ≤ e.coChanges)
    ∧ (∀ a b, lookupD (couplingCounts commits files).1 (pairKey a b) 0 < 3 →
        strengthFor commits files a b = 0)
    ∧ (∀ f ∈ files, (∀ e ∈ analyzeCoupling commits files,
        e.fileA ≠ f ∧ e.fileB ≠ f) →
        lookupA (getCouplingScores files (analyzeCoupling commits files)) f
          = some 0) := by
  refine ⟨strengthFor_comm commits files,
    analyzeCoupling_coChanges commits files, ?_, ?_⟩
  · intro a b h
    simp only [strengthFor]
    rw [if_pos h]
  · intro f hf h
    exact getCouplingScores_zero files _ hf h

theorem C6_witness :
    strengthFor [] ["a.ts"] "a.ts" "b.ts" = strengthFor [] ["a.ts"] "b.ts" "a.ts"
    ∧ ("a.ts" ∈ ["a.ts"])
    ∧ lookupA (getCouplingScores ["a.ts"] (analyzeCoupling [] ["a.ts"])) "a.ts"
        = some 0 :=
  ⟨(C6_coupling_symmetry_threshold_default [] ["a.ts"]).1 "a.ts" "b.ts",
   by decide,
   (C6_coupling_symmetry_threshold_default [] ["a.ts"]).2.2.2 "a.ts"
     (by decide) (by decide)⟩

/-- C7: a changed-path line of the plain rename form `old => new` is
attributed to the post-rename path by both parsers: the two normalize
functions return `new` (never `old`), a log body line `old.ts => new.ts`
puts `new.ts` in the commit's file list, and a numstat line uses `new.ts`
as the DiffStats key. -/
theorem C7_rename_attributed_to_new_path (old new : String)
    (hsplit : splitStr (old ++ " => " ++ new) " => " = [old, new])
    (hbrace : containsC (old ++ " => " ++ new) '\x7b' = false)
    (htrim : trimS new = new) (hne : new ≠ old) :
    normalizeFilename (old ++ " => " ++ new) = some new
    ∧ normalizeNumstatFilename (old ++ " => " ++ new) = some new
    ∧ normalizeFilename (old ++ " => " ++ new) ≠ some old
    ∧ normalizeNumstatFilename (old ++ " => " ++ new) ≠ some old
    ∧ parseCommitOutput "COMMIT|h1|dev|100|Rename module\nold.ts => new.ts" =
        [{ hash := "h1", author := "dev", timestamp := 100,
           subject := "Rename module", files := ["new.ts"] }]
    ∧ parseNumstatOutput "COMMIT|h1\n3\t1\told.ts => new.ts" =
        [("new.ts", { additions := 3, deletions := 1 })] := by
  have harrow : includesS (old ++ " => " ++ new) " => " = true := by
    unfold includesS
    rw [hsplit]
    rfl
  have hlast : (splitStr (old ++ " => " ++ new) " => ").getLast? = some new := by
    rw [hsplit]
    rfl
  have h1 : normalizeFilename (old ++ " => " ++ new) = some new := by
    unfold normalizeFilename
    rw [hbrace]
    simp only [Bool.false_and, Bool.false_eq_true, if_false, harrow, if_true,
      hlast, htrim]
  have h2 : normalizeNumstatFilename (old ++ " => " ++ new) = some new := by
    unfold normalizeNumstatFilename
    rw [hbrace]
    simp only [Bool.false_and, Bool.false_eq_true, if_false, harrow, if_true,
      hlast, htrim]
  refine ⟨h1, h2, ?_, ?_, by decide, by decide⟩
  · rw [h1]
    intro h
    exact hne (Option.some.inj h)
  · rw [h2]
    intro h
    exact hne (Option.some.inj h)

theorem C7_witness :
    (splitStr ("old.ts" ++ " => " ++ "new.ts") " => " = ["old.ts", "new.ts"]
      ∧ containsC ("old.ts" ++ " => " ++ "new.ts") '\x7b' = false
      ∧ trimS "new.ts" = "new.ts" ∧ "new.ts" ≠ "old.ts")
    ∧ normalizeFilename ("old.ts" ++ " => " ++ "new.ts") = some "new.ts"
    ∧ normalizeNumstatFilename ("old.ts" ++ " => " ++ "new.ts") = some "new.ts" :=
  ⟨⟨by decide, by decide, by decide, by decide⟩,
   (C7_rename_attributed_to_new_path "old.ts" "new.ts"
     (by decide) (by decide) (by decide) (by decide)).1,
   (C7_rename_attributed_to_new_path "old.ts" "new.ts"
     (by decide) (by decide) (by decide) (by decide)).2.1⟩

/-- A convex-style bound: a weighted sum of components in [0, 100] with
non-negative weights summing to 1 stays in [0, 100]. -/
theorem weighted_sum_bounds (c1 c2 c3 c4 c5 c6 : Int) (c7 : ℚ)
    (w1 w2 w3 w4 w5 w6 w7 : ℚ)
    (h1 : 0 ≤ c1 ∧ c1 ≤ 100) (h2 : 0 ≤ c2 ∧ c2 ≤ 100)
    (h3 : 0 ≤ c3 ∧ c3 ≤ 100) (h4 : 0 ≤ c4 ∧ c4 ≤ 100)
    (h5 : 0 ≤ c5 ∧ c5 ≤ 100) (h6 : 0 ≤ c6 ∧ c6 ≤ 100)
    (h7 : 0 ≤ c7 ∧ c7 ≤ 100)
    (hw1 : 0 ≤ w1) (hw2 : 0 ≤ w2) (hw3 : 0 ≤ w3) (hw4 : 0 ≤ w4)
    (hw5 : 0 ≤ w5) (hw6 : 0 ≤ w6) (hw7 : 0 ≤ w7)
    (hsum : w1 + w2 + w3 + w4 + w5 + w6 + w7 = 1) :
    0 ≤ (c1 : ℚ) * w1 + (c2 : ℚ) * w2 + (c3 : ℚ) * w3 + (c4 : ℚ) * w4
        + (c5 : ℚ) * w5 + (c6 : ℚ) * w6 + c7 * w7
    ∧ (c1 : ℚ) * w1 + (c2 : ℚ) * w2 + (c3 : ℚ) * w3 + (c4 : ℚ) * w4
        + (c5 : ℚ) * w5 + (c6 : ℚ) * w6 + c7 * w7 ≤ 100 := by
  have l1 : (0 : ℚ) ≤ (c1 : ℚ) := by exact_mod_cast h1.1
  have l2 : (0 : ℚ) ≤ (c2 : ℚ) := by exact_mod_cast h2.1
  have l3 : (0 : ℚ) ≤ (c3 : ℚ) := by exact_mod_cast h3.1
  have l4 : (0 : ℚ) ≤ (c4 : ℚ) := by exact_mod_cast h4.1
  have l5 : (0 : ℚ) ≤ (c5 : ℚ) := by exact_mod_cast h5.1
  have l6 : (0 : ℚ) ≤ (c6 : ℚ) := by exact_mod_cast h6.1
  have u1 : ((c1 : ℚ)) ≤ 100 := by exact_mod_cast h1.2
  have u2 : ((c2 : ℚ)) ≤ 100 := by exact_mod_cast h2.2
  have u3 : ((c3 : ℚ)) ≤ 100 := by exact_mod_cast h3.2
  have u4 : ((c4 : ℚ)) ≤ 100 := by exact_mod_cast h4.2
  have u5 : ((c5 : ℚ)) ≤ 100 := by exact_mod_cast h5.2
  have u6 : ((c6 : ℚ)) ≤ 100 := by exact_mod_cast h6.2
  constructor
  · have := mul_nonneg l1 hw1
    have := mul_nonneg l2 hw2
    have := mul_nonneg l3 hw3
    have := mul_nonneg l4 hw4
    have := mul_nonneg l5 hw5
    have := mul_nonneg l6 hw6
    have := mul_nonneg h7.1 hw7
    linarith
  · have := mul_le_mul_of_nonneg_right u1 hw1
    have := mul_le_mul_of_nonneg_right u2 hw2
    have := mul_le_mul_of_nonneg_right u3 hw3
    have := mul_le_mul_of_nonneg_right u4 hw4
    have := mul_le_mul_of_nonneg_right u5 hw5
    have := mul_le_mul_of_nonneg_right u6 hw6
    have := mul_le_mul_of_nonneg_right h7.2 hw7
    linarith

/-- C1: for any (possibly partial) weight override whose merged seven values
are non-negative with a positive sum, and analyzer inputs whose per-file
component scores all lie in [0, 100], `scoreHotspots` uses effective weights
equal to each merged input divided by the sum of all seven (so they sum
to 1), and every returned hotspotScore is in [0, 100]. -/
theorem C1_effective_weights_and_score_range (files : List String)
    (input : ScoringInput)
    (hw1 : 0 ≤ (mergeWeights input.weights).churn)
    (hw2 : 0 ≤ (mergeWeights input.weights).bugs)
    (hw3 : 0 ≤ (mergeWeights input.weights).reverts)
    (hw4 : 0 ≤ (mergeWeights input.weights).bursts)
    (hw5 : 0 ≤ (mergeWeights input.weights).coupling)
    (hw6 : 0 ≤ (mergeWeights input.weights).silo)
    (hw7 : 0 ≤ (mergeWeights input.weights).commitQuality)
    (hpos : 0 < sumWeights (mergeWeights input.weights))
    (hchurn : ∀ p ∈ input.churnData,
      0 ≤ p.2.weightedScore ∧ p.2.weightedScore ≤ 100)
    (hbug : ∀ p ∈ input.bugData, 0 ≤ p.2.bugScore ∧ p.2.bugScore ≤ 100)
    (hrev : ∀ p ∈ input.revertData, 0 ≤ p.2.revertScore ∧ p.2.revertScore ≤ 100)
    (hburst : ∀ p ∈ input.burstData, 0 ≤ p.2.burstScore ∧ p.2.burstScore ≤ 100)
    (hsilo : ∀ p ∈ input.siloData,
      0 ≤ p.2.topAuthorPercent ∧ p.2.topAuthorPercent ≤ 100)
    (hcq : ∀ p ∈ input.commitQualityData,
      0 ≤ p.2.commitQualityScore ∧ p.2.commitQualityScore ≤ 100)
    (hcoup : ∀ e ∈ input.couplingData, 0 ≤ e.strength ∧ e.strength ≤ 100) :
    normWeights (mergeWeights input.weights) =
      { churn := (mergeWeights input.weights).churn
          / sumWeights (mergeWeights input.weights)
        bugs := (mergeWeights input.weights).bugs
          / sumWeights (mergeWeights input.weights)
        reverts := (mergeWeights input.weights).reverts
          / sumWeights (mergeWeights input.weights)
        bursts := (mergeWeights input.weights).bursts
          / sumWeights (mergeWeights input.weights)
        coupling := (mergeWeights input.weights).coupling
          / sumWeights (mergeWeights input.weights)
        silo := (mergeWeights input.weights).silo
          / sumWeights (mergeWeights input.weights)
        commitQuality := (mergeWeights input.weights).commitQuality
          / sumWeights (mergeWeights input.weights) }
    ∧ sumWeights (normWeights (mergeWeights input.weights)) = 1
    ∧ ∀ r ∈ scoreHotspots files input,
        0 ≤ r.hotspotScore ∧ r.hotspotScore ≤ 100 := by
  refine ⟨rfl, sumWeights_normWeights _ (ne_of_gt hpos), ?_⟩
  intro r hr
  unfold scoreHotspots at hr
  rcases List.mem_map.mp hr with ⟨file, hfile, rfl⟩
  dsimp only
  have hn1 : 0 ≤ (normWeights (mergeWeights input.weights)).churn :=
    div_nonneg hw1 hpos.le
  have hn2 : 0 ≤ (normWeights (mergeWeights input.weights)).bugs :=
    div_nonneg hw2 hpos.le
  have hn3 : 0 ≤ (normWeights (mergeWeights input.weights)).reverts :=
    div_nonneg hw3 hpos.le
  have hn4 : 0 ≤ (normWeights (mergeWeights input.weights)).bursts :=
    div_nonneg hw4 hpos.le
  have hn5 : 0 ≤ (normWeights (mergeWeights input.weights)).coupling :=
    div_nonneg hw5 hpos.le
  have hn6 : 0 ≤ (normWeights (mergeWeights input.weights)).silo :=
    div_nonneg hw6 hpos.le
  have hn7 : 0 ≤ (normWeights (mergeWeights input.weights)).commitQuality :=
    div_nonneg hw7 hpos.le
  have hsum : (normWeights (mergeWeights input.weights)).churn
      + (normWeights (mergeWeights input.weights)).bugs
      + (normWeights (mergeWeights input.weights)).reverts
      + (normWeights (mergeWeights input.weights)).bursts
      + (normWeights (mergeWeights input.weights)).coupling
      + (normWeights (mergeWeights input.weights)).silo
      + (normWeights (mergeWeights input.weights)).commitQuality = 1 :=
    sumWeights_normWeights _ (ne_of_gt hpos)
  have hc1 : 0 ≤ ((lookupA input.churnData file).getD CHURN_FALLBACK).weightedScore
      ∧ ((lookupA input.churnData file).getD CHURN_FALLBACK).weightedScore ≤ 100 :=
    lookup_field_bounds input.churnData CHURN_FALLBACK (fun d => d.weightedScore) 0 100 hchurn
      (by constructor <;> simp [CHURN_FALLBACK]) file
  have hc2 : 0 ≤ ((lookupA input.bugData file).getD BUG_FALLBACK).bugScore
      ∧ ((lookupA input.bugData file).getD BUG_FALLBACK).bugScore ≤ 100 :=
    lookup_field_bounds input.bugData BUG_FALLBACK (fun d => d.bugScore) 0 100 hbug
      (by constructor <;> simp [BUG_FALLBACK]) file
  have hc3 : 0 ≤ ((lookupA input.revertData file).getD REVERT_FALLBACK).revertScore
      ∧ ((lookupA input.revertData file).getD REVERT_FALLBACK).revertScore ≤ 100 :=
    lookup_field_bounds input.revertData REVERT_FALLBACK (fun d => d.revertScore) 0 100 hrev
      (by constructor <;> simp [REVERT_FALLBACK]) file
  have hc4 : 0 ≤ ((lookupA input.burstData file).getD BURST_FALLBACK).burstScore
      ∧ ((lookupA input.burstData file).getD BURST_FALLBACK).burstScore ≤ 100 :=
    lookup_field_bounds input.burstData BURST_FALLBACK (fun d => d.burstScore) 0 100 hburst
      (by constructor <;> simp [BURST_FALLBACK]) file
  have hc5 : 0 ≤ lookupD (getCouplingScores files input.couplingData) file 0
      ∧ lookupD (getCouplingScores files input.couplingData) file 0 ≤ 100 :=
    getCouplingScores_bounds files input.couplingData hcoup file
  have hc6 : 0 ≤ ((lookupA input.siloData file).getD SILO_FALLBACK).topAuthorPercent
      ∧ ((lookupA input.siloData file).getD SILO_FALLBACK).topAuthorPercent ≤ 100 :=
    lookup_field_bounds input.siloData SILO_FALLBACK (fun d => d.topAuthorPercent) 0 100 hsilo
      (by constructor <;> simp [SILO_FALLBACK]) file
  have hc7 : 0 ≤ ((lookupA input.commitQualityData file).getD
        CQ_FALLBACK).commitQualityScore
      ∧ ((lookupA input.commitQualityData file).getD
        CQ_FALLBACK).commitQualityScore ≤ 100 :=
    lookup_field_bounds input.commitQualityData CQ_FALLBACK (fun d => d.commitQualityScore) 0 100 hcq
      (by constructor <;> simp [CQ_FALLBACK]) file
  have hb := weighted_sum_bounds _ _ _ _ _ _ _ _ _ _ _ _ _ _
    hc1 hc2 hc3 hc4 hc5 hc6 hc7 hn1 hn2 hn3 hn4 hn5 hn6 hn7 hsum
  exact jround_bounds hb.1 hb.2

theorem C1_witness :
    (0 < sumWeights (mergeWeights ({} : WeightsOverride)))
    ∧ sumWeights (normWeights (mergeWeights ({} : WeightsOverride))) = 1 :=
  ⟨by norm_num [sumWeights, mergeWeights, DEFAULT_WEIGHTS],
   (C1_effective_weights_and_score_range ["a.ts"]
     { churnData := [], bugData := [], revertData := [], burstData := [],
       couplingData := [], siloData := [], commitQualityData := [],
       diffStats := [], weights := {} }
     (by norm_num [mergeWeights, DEFAULT_WEIGHTS])
     (by norm_num [mergeWeights, DEFAULT_WEIGHTS])
     (by norm_num [mergeWeights, DEFAULT_WEIGHTS])
     (by norm_num [mergeWeights, DEFAULT_WEIGHTS])
     (by norm_num [mergeWeights, DEFAULT_WEIGHTS])
     (by norm_num [mergeWeights, DEFAULT_WEIGHTS])
     (by norm_num [mergeWeights, DEFAULT_WEIGHTS])
     (by norm_num [sumWeights, mergeWeights, DEFAULT_WEIGHTS])
     (by simp) (by simp) (by simp) (by simp) (by simp) (by simp) (by simp)).2.1⟩

theorem C2_witness :
    ("a.ts" ∈ ["a.ts"])
    ∧ (∃ d, lookupA (analyzeReverts [] ["a.ts"]) "a.ts" = some d)
    ∧ lookupA (analyzeReverts [] ["a.ts"]) "a.ts" =
        some { revertCount := 0, revertScore := 0 } :=
  ⟨by decide,
   (C2_analyzers_total_with_zero_defaults (fun _ => 1) 0 [] ["a.ts"] "a.ts"
     (by decide)).2.2.1,
   (C2_analyzers_total_with_zero_defaults (fun _ => 1) 0 [] ["a.ts"] "a.ts"
     (by decide)).2.2.2.2.2.2.2.2.2.1 (by simp)⟩

theorem C8_witness :
    ("a.ts" ∈ ["a.ts"])
    ∧ lookupA (analyzeAuthors [] ["a.ts"]) "a.ts" =
        some { topAuthor := "unknown", topAuthorPercent := 100, authorCount := 1 }
    ∧ ∃ r ∈ scoreHotspots ["a.ts"]
        { churnData := [], bugData := [], revertData := [], burstData := [],
          couplingData := [], siloData := analyzeAuthors [] ["a.ts"],
          commitQualityData := [], diffStats := [], weights := {} },
        r.file = "a.ts" ∧ r.siloScore = 100 :=
  ⟨by decide,
   (C8_untouched_file_silo_default [] ["a.ts"]
     { churnData := [], bugData := [], revertData := [], burstData := [],
       couplingData := [], siloData := analyzeAuthors [] ["a.ts"],
       commitQualityData := [], diffStats := [], weights := {} }
     "a.ts" (by decide) (by simp) rfl).1,
   (C8_untouched_file_silo_default [] ["a.ts"]
     { churnData := [], bugData := [], revertData := [], burstData := [],
       couplingData := [], siloData := analyzeAuthors [] ["a.ts"],
       commitQualityData := [], diffStats := [], weights := {} }
     "a.ts" (by decide) (by simp) rfl).2⟩

theorem C10_witness :
    ("a.ts" ∈ ["a.ts"])
    ∧ ∃ d, lookupA (analyzeCommitQuality [] ["a.ts"]) "a.ts" = some d
        ∧ 0 ≤ d.commitQualityScore ∧ d.commitQualityScore ≤ 100 :=
  ⟨by decide, C10_commit_quality_score_range [] ["a.ts"] "a.ts" (by decide)⟩

end Scanline
